import Mathlib

/-!
# The `bro` command-line driver (tools/bro.cc)

A shallow embedding of the driver: argument parsing (`ParseQuality`,
`ParseArgv`), stream opening (`OpenInputFile`, `OpenOutputFile`) and the
repeat loop of `main`, over an explicit model of the file system and of the
external codec.
-/

namespace Bro

/-! ## C strings -/

/-- A C string, given by the characters that precede its terminating NUL. -/
abbrev CStr := List Char

/-- The NUL character that terminates a C string. -/
def NUL : Char := Char.ofNat 0

/-- The string has no NUL among its characters, so that the list is the whole
string up to its terminator. -/
def NulFree (s : CStr) : Prop := ∀ c ∈ s, c ≠ NUL

instance (s : CStr) : Decidable (NulFree s) := by
  unfold NulFree; infer_instance

/-- The character `s[i]`; the position just past the characters holds the
terminator. -/
def charAt (s : CStr) (i : Nat) : Char := s.getD i NUL

/-- The libc `strlen`: the number of characters before the first NUL. -/
def strlen : CStr → Nat
  | [] => 0
  | c :: cs => if c = NUL then 0 else strlen cs + 1

/-- The libc `strcmp`: zero when the two strings agree up to and including
the terminator, otherwise the difference of the first two characters that
differ. -/
def strcmp : CStr → CStr → Int
  | [], [] => 0
  | [], b :: _ => 0 - (b.toNat : Int)
  | a :: _, [] => (a.toNat : Int)
  | a :: as, b :: bs =>
    if a ≠ b then (a.toNat : Int) - (b.toNat : Int)
    else if a = NUL then 0
    else strcmp as bs

/-- A string literal of the source as a C string. -/
def lit (s : String) : CStr := s.toList

/-! ## ParseQuality -/

/-- `ParseQuality(s, quality)`: the returned flag and the value left in
`*quality` (the second argument is the value `*quality` holds on entry). -/
def ParseQuality (s : CStr) (quality : Int) : Bool × Int :=
  if '0' ≤ charAt s 0 ∧ charAt s 0 ≤ '9' then
    let quality : Int := ((charAt s 0).toNat : Int) - (('0').toNat : Int)
    if '0' ≤ charAt s 1 ∧ charAt s 1 ≤ '9' then
      let quality : Int := quality * 10 + ((charAt s 1).toNat : Int) - (('0').toNat : Int)
      (decide (charAt s 2 = NUL), quality)
    else
      (decide (charAt s 1 = NUL), quality)
  else
    (false, quality)

/-! ## ParseArgv -/

/-- The nine variables of `main` that `ParseArgv` writes through its pointer
parameters. A null path is `none`. -/
structure Config where
  input_path : Option CStr
  output_path : Option CStr
  force : Int
  quality : Int
  decompress : Int
  repeat_ : Int
  verbose : Int
  lgwin : Int
  mode : Int
  deriving DecidableEq

/-- The `for (k = 1; k < argc; ++k)` loop of `ParseArgv`, on the arguments
from `argv[k]` on. `none` is the jump to `error`, which prints the usage text
and calls `exit(1)`. The test `k < argc - 1` is the test that an argument
follows `argv[k]`. -/
def ParseArgvLoop : List CStr → Config → Option Config
  | [], c => some c
  | a :: rest, c =>
    if strcmp (lit "--force") a = 0 ∨ strcmp (lit "-f") a = 0 then
      if c.force ≠ 0 then none
      else ParseArgvLoop rest { c with force := 1 }
    else if strcmp (lit "--decompress") a = 0 ∨ strcmp (lit "--uncompress") a = 0 ∨
        strcmp (lit "-d") a = 0 then
      ParseArgvLoop rest { c with decompress := 1 }
    else if strcmp (lit "--verbose") a = 0 ∨ strcmp (lit "-v") a = 0 then
      if c.verbose ≠ 0 then none
      else ParseArgvLoop rest { c with verbose := 1 }
    else
      match rest with
      | [] => none
      | v :: rest' =>
        if strcmp (lit "--input") a = 0 ∨ strcmp (lit "--in") a = 0 ∨
            strcmp (lit "-i") a = 0 then
          if c.input_path ≠ none then none
          else ParseArgvLoop rest' { c with input_path := some v }
        else if strcmp (lit "--output") a = 0 ∨ strcmp (lit "--out") a = 0 ∨
            strcmp (lit "-o") a = 0 then
          if c.output_path ≠ none then none
          else ParseArgvLoop rest' { c with output_path := some v }
        else if strcmp (lit "--quality") a = 0 ∨ strcmp (lit "-q") a = 0 then
          if (ParseQuality v c.quality).1 = false then none
          else ParseArgvLoop rest' { c with quality := (ParseQuality v c.quality).2 }
        else if strcmp (lit "--repeat") a = 0 ∨ strcmp (lit "-r") a = 0 then
          if (ParseQuality v c.repeat_).1 = false then none
          else ParseArgvLoop rest' { c with repeat_ := (ParseQuality v c.repeat_).2 }
        else if strcmp (lit "--window") a = 0 ∨ strcmp (lit "-w") a = 0 then
          if (ParseQuality v c.lgwin).1 = false then none
          else ParseArgvLoop rest' { c with lgwin := (ParseQuality v c.lgwin).2 }
        else if strcmp (lit "--mode") a = 0 ∨ strcmp (lit "-m") a = 0 then
          if (ParseQuality v c.mode).1 = false then none
          else ParseArgvLoop rest' { c with mode := (ParseQuality v c.mode).2 }
        else none

/-- The assignments `ParseArgv` makes before its loop; `argv0` is `argv[0]`
and `c` holds the values the nine variables have on entry. -/
def ParseArgvInit (argv0 : CStr) (c : Config) : Config :=
  let argv0_len := strlen argv0
  { c with
    force := 0
    input_path := none
    output_path := none
    repeat_ := 1
    verbose := 0
    decompress :=
      if argv0_len ≥ 5 ∧ strcmp (argv0.drop (argv0_len - 5)) (lit "unbro") = 0 then 1
      else 0 }

/-- `ParseArgv`: `argv0` is `argv[0]`, `args` are `argv[1..argc-1]`, and `c`
holds the values the nine variables have when `main` makes the call. The
result is `none` when the usage text is printed and the process exits with
status 1. -/
def ParseArgv (argv0 : CStr) (args : List CStr) (c : Config) : Option Config :=
  ParseArgvLoop args (ParseArgvInit argv0 c)

/-- The values `main` gives its nine variables before calling `ParseArgv`. -/
def mainInit : Config :=
  { input_path := none, output_path := none, force := 0, quality := 11,
    decompress := 0, repeat_ := 1, verbose := 0, lgwin := 22, mode := 0 }

/-! ## The file system, the streams and the external codec -/

/-- A stdio stream: one of the two standard streams of the process, or the
`FILE` object that the `id`-th successful `fopen` of the run returned. -/
inductive Stream where
  | stdin
  | stdout
  | file (id : Nat)
  deriving DecidableEq

/-- The part of the operating system the driver acts on. `files p` is the
content of the file named `p`, `none` when no file has that name; `readable`
and `writable` say whether `fopen(p, "rb")` of an existing file and
`fopen(p, "wb")` are permitted; `removable` says whether `unlink(p)` succeeds
(it fails, for instance, in a directory that may not be written, or on a
system that refuses to remove a file that is still open); `opened` counts
the successful `fopen` calls so far; `stdout` holds the bytes written to
standard output. Paths name files by their spelling. -/
structure World where
  files : CStr → Option (List Nat)
  readable : CStr → Bool
  writable : CStr → Bool
  removable : CStr → Bool
  opened : Nat
  stdout : List Nat

/-- The mode argument of `fopen`. -/
inductive Mode where
  | rb
  | wb
  deriving DecidableEq

/-- The parameter block `brotli::BrotliParams` as `main` fills it. -/
structure BrotliParams where
  quality : Int
  lgwin : Int
  mode : Int
  deriving DecidableEq

/-- What one call of the codec does: its boolean result and the bytes it
wrote to the output stream. -/
structure CodecResult where
  ok : Bool
  written : List Nat
  deriving DecidableEq

/-- The behaviour of the collaborators that `main` only calls: the result of
the codec call made in iteration `i` (whatever the codec computes from the
input stream), and the result of `fclose` in iteration `i` on a stream
(`true` when `fclose` returns 0). -/
structure Env where
  BrotliCompress : Nat → BrotliParams → CodecResult
  BrotliDecompress : Nat → CodecResult
  fclose : Nat → Stream → Bool

/-- The diagnostics the driver writes to standard error. -/
inductive Msg where
  | usage
  | perrorFopen
  | outputFileExists
  | corruptInput
  | compressionFailed
  | perrorFclose
  deriving DecidableEq

/-- The observable actions of a run, in the order they happen. -/
inductive Event where
  | setmode (s : Stream)
  | fopen (path : CStr) (mode : Mode) (result : Option Stream)
  | stat (path : CStr) (found : Bool)
  | BrotliDecompress (fin fout : Stream) (ok : Bool)
  | BrotliCompress (params : BrotliParams) (fin fout : Stream) (ok : Bool)
  | fclose (s : Stream) (ok : Bool)
  | unlink (path : Option CStr)
  | stderr (m : Msg)
  | report
  deriving DecidableEq

/-- How a run of the process ends: the exit status, the state of the system
and the actions performed. -/
structure Outcome where
  status : Int
  world : World
  trace : List Event

/-- The outcome with the actions `t` performed before it. -/
def Outcome.after (t : List Event) (o : Outcome) : Outcome :=
  { o with trace := t ++ o.trace }

/-- The result of a function that returns a stream or ends the process. -/
inductive Opened where
  | ok (f : Stream) (w : World) (t : List Event)
  | exit (status : Int) (w : World) (t : List Event)

/-- The file system with the file named `p` set to `content`. -/
def World.setFile (w : World) (p : CStr) (content : Option (List Nat)) : World :=
  { w with files := fun q => if q = p then content else w.files q }

/-- The libc `fopen`: reading needs an existing readable file; writing
creates the file or truncates it to zero length. -/
def fopen (w : World) (path : CStr) : Mode → Option Stream × World
  | .rb =>
    if (w.files path).isSome ∧ w.readable path = true then
      (some (.file w.opened), { w with opened := w.opened + 1 })
    else (none, w)
  | .wb =>
    if w.writable path = true then
      (some (.file w.opened), { (w.setFile path (some [])) with opened := w.opened + 1 })
    else (none, w)

/-- The libc `stat`, as the test `stat(path, &statbuf) == 0`. -/
def stat (w : World) (path : CStr) : Bool := (w.files path).isSome

/-- The libc `unlink`: it removes the name when that is permitted and leaves
the file system as it is when it fails. Its result is discarded by the
caller, and a null path removes nothing. -/
def unlink (w : World) : Option CStr → World
  | none => w
  | some p => if w.removable p = true then w.setFile p none else w

/-- The bytes a codec call wrote reach the file the output stream was opened
on (just truncated by `fopen`), or standard output. -/
def World.write (w : World) (output_path : Option CStr) (bytes : List Nat) : World :=
  match output_path with
  | none => { w with stdout := w.stdout ++ bytes }
  | some p => w.setFile p (some bytes)

/-! ## OpenInputFile, OpenOutputFile, main -/

/-- `OpenInputFile(input_path)`. -/
def OpenInputFile (input_path : Option CStr) (w : World) : Opened :=
  match input_path with
  | none => .ok .stdin w [.setmode .stdin]
  | some p =>
    match fopen w p .rb with
    | (none, w1) => .exit 1 w1 [.fopen p .rb none, .stderr .perrorFopen]
    | (some f, w1) => .ok f w1 [.fopen p .rb (some f)]

/-- `OpenOutputFile(output_path, force)`. -/
def OpenOutputFile (output_path : Option CStr) (force : Int) (w : World) : Opened :=
  match output_path with
  | none => .ok .stdout w [.setmode .stdout]
  | some p =>
    if force = 0 ∧ stat w p = true then
      .exit 1 w [.stat p true, .stderr .outputFileExists]
    else
      let t0 : List Event := if force = 0 then [.stat p false] else []
      match fopen w p .wb with
      | (none, w1) => .exit 1 w1 (t0 ++ [.fopen p .wb none, .stderr .perrorFopen])
      | (some f, w1) => .ok f w1 (t0 ++ [.fopen p .wb (some f)])

/-- The two `fclose` calls that end iteration `i`; `none` when both return 0
and the loop goes on. -/
def closeBoth (env : Env) (i : Nat) (fin fout : Stream) (w : World) :
    List Event × Option Outcome :=
  if env.fclose i fin = false then
    ([.fclose fin false, .stderr .perrorFclose],
      some ⟨1, w, []⟩)
  else if env.fclose i fout = false then
    ([.fclose fin true, .fclose fout false, .stderr .perrorFclose],
      some ⟨1, w, []⟩)
  else ([.fclose fin true, .fclose fout true], none)

/-- The end of `main` after the loop: the summary line when `verbose` is
set (its floating-point figures are not modelled), then `return 0`. -/
def mainEnd (c : Config) (w : World) : Outcome :=
  ⟨0, w, if c.verbose ≠ 0 then [.report] else []⟩

/-- The loop `for (i = 0; i < repeat; ++i)` of `main` with `n` iterations
left to run, the next one being iteration `i`, followed by the end of
`main`. -/
def mainLoop (env : Env) (c : Config) : Nat → Nat → World → Outcome
  | 0, _, w => mainEnd c w
  | n + 1, i, w =>
    match OpenInputFile c.input_path w with
    | .exit s w1 t1 => ⟨s, w1, t1⟩
    | .ok fin w1 t1 =>
      match OpenOutputFile c.output_path c.force w1 with
      | .exit s w2 t2 => ⟨s, w2, t1 ++ t2⟩
      | .ok fout w2 t2 =>
        if c.decompress ≠ 0 then
          let r := env.BrotliDecompress i
          let w3 := w2.write c.output_path r.written
          if r.ok = false then
            ⟨1, w3, t1 ++ t2 ++ [.BrotliDecompress fin fout false, .stderr .corruptInput]⟩
          else
            match closeBoth env i fin fout w3 with
            | (t4, some o) => o.after (t1 ++ t2 ++ [.BrotliDecompress fin fout true] ++ t4)
            | (t4, none) =>
              (mainLoop env c n (i + 1) w3).after
                (t1 ++ t2 ++ [.BrotliDecompress fin fout true] ++ t4)
        else
          let params : BrotliParams := ⟨c.quality, c.lgwin, c.mode⟩
          let r := env.BrotliCompress i params
          let w3 := w2.write c.output_path r.written
          if r.ok = false then
            ⟨1, unlink w3 c.output_path,
              t1 ++ t2 ++ [.BrotliCompress params fin fout false, .stderr .compressionFailed,
                .unlink c.output_path]⟩
          else
            match closeBoth env i fin fout w3 with
            | (t4, some o) => o.after (t1 ++ t2 ++ [.BrotliCompress params fin fout true] ++ t4)
            | (t4, none) =>
              (mainLoop env c n (i + 1) w3).after
                (t1 ++ t2 ++ [.BrotliCompress params fin fout true] ++ t4)

/-- The function `main`: `argv0` is `argv[0]` and `args` the further
arguments. -/
def main (env : Env) (argv0 : CStr) (args : List CStr) (w : World) : Outcome :=
  match ParseArgv argv0 args mainInit with
  | none => ⟨1, w, [.stderr .usage]⟩
  | some c => mainLoop env c c.repeat_.toNat 0 w

/-! ## Vocabulary of the properties -/

/-- The character is one of the ASCII digits. -/
def IsDigit (c : Char) : Prop := '0' ≤ c ∧ c ≤ '9'

instance (c : Char) : Decidable (IsDigit c) := by unfold IsDigit; infer_instance

/-- The value of a string of decimal digits. -/
def decimalValue (s : CStr) : Int :=
  s.foldl (fun acc c => acc * 10 + ((c.toNat : Int) - 48)) 0


/-- The options of the command line. -/
inductive Flag where
  | force | decompress | verbose | input | output | quality | repeat_ | window | mode
  deriving DecidableEq

/-- The option a token spells, `none` when it is none of the recognised
spellings. -/
def flagOf (a : CStr) : Option Flag :=
  if a = lit "--force" ∨ a = lit "-f" then some .force
  else if a = lit "--decompress" ∨ a = lit "--uncompress" ∨ a = lit "-d" then some .decompress
  else if a = lit "--verbose" ∨ a = lit "-v" then some .verbose
  else if a = lit "--input" ∨ a = lit "--in" ∨ a = lit "-i" then some .input
  else if a = lit "--output" ∨ a = lit "--out" ∨ a = lit "-o" then some .output
  else if a = lit "--quality" ∨ a = lit "-q" then some .quality
  else if a = lit "--repeat" ∨ a = lit "-r" then some .repeat_
  else if a = lit "--window" ∨ a = lit "-w" then some .window
  else if a = lit "--mode" ∨ a = lit "-m" then some .mode
  else none

/-- The options that take the following token as their value. -/
def Flag.takesValue : Flag → Bool
  | .force | .decompress | .verbose => false
  | _ => true

/-- The token spells an option that takes a value. -/
def isValueFlag (a : CStr) : Bool :=
  match flagOf a with
  | some f => f.takesValue
  | none => false

/-- The tokens in flag position, that is, not consumed as the value of a
preceding value flag, each with the token that follows it, if any. -/
def flagTokens : List CStr → List (CStr × Option CStr)
  | [] => []
  | [a] => [(a, none)]
  | a :: v :: rest' =>
    (a, some v) ::
      (if isValueFlag a = true then flagTokens rest' else flagTokens (v :: rest'))

/-- The effect of one token in flag position on the configuration, `none`
for the usage error. -/
def applyFlag (c : Config) (t : CStr × Option CStr) : Option Config :=
  match flagOf t.1, t.2 with
  | some .force, _ => if c.force ≠ 0 then none else some { c with force := 1 }
  | some .decompress, _ => some { c with decompress := 1 }
  | some .verbose, _ => if c.verbose ≠ 0 then none else some { c with verbose := 1 }
  | some .input, some v =>
    if c.input_path ≠ none then none else some { c with input_path := some v }
  | some .output, some v =>
    if c.output_path ≠ none then none else some { c with output_path := some v }
  | some .quality, some v =>
    if (ParseQuality v c.quality).1 = false then none
    else some { c with quality := (ParseQuality v c.quality).2 }
  | some .repeat_, some v =>
    if (ParseQuality v c.repeat_).1 = false then none
    else some { c with repeat_ := (ParseQuality v c.repeat_).2 }
  | some .window, some v =>
    if (ParseQuality v c.lgwin).1 = false then none
    else some { c with lgwin := (ParseQuality v c.lgwin).2 }
  | some .mode, some v =>
    if (ParseQuality v c.mode).1 = false then none
    else some { c with mode := (ParseQuality v c.mode).2 }
  | _, _ => none

/-- The effect of the tokens in flag position, applied from left to right. -/
def applyFlags : List (CStr × Option CStr) → Config → Option Config
  | [], c => some c
  | t :: ts, c => (applyFlag c t).bind (applyFlags ts)

/-- The number of tokens among `ts` that spell the option `f`. -/
def occurrences (f : Flag) : List (CStr × Option CStr) → Nat
  | [] => 0
  | t :: ts => (if flagOf t.1 = some f then 1 else 0) + occurrences f ts

/-- The options whose value is read by `ParseQuality`. -/
def Flag.isNumeric : Flag → Bool
  | .quality | .repeat_ | .window | .mode => true
  | _ => false

/-- The faults of a token in flag position: it is none of the recognised
spellings, or it is a value flag and the last argument, or it is a numeric
value flag and `ParseQuality` returns false on the token that follows. -/
def usageFault (t : CStr × Option CStr) : Bool :=
  match flagOf t.1, t.2 with
  | none, _ => true
  | some f, none => f.takesValue
  | some f, some v => f.isNumeric && !(ParseQuality v 0).1

/-- The action is a call of the codec. -/
def Event.isCodecCall : Event → Bool
  | .BrotliDecompress _ _ _ => true
  | .BrotliCompress _ _ _ _ => true
  | _ => false

/-- The codec call of iteration `i` succeeds: `BrotliDecompress` in
decompress mode, `BrotliCompress` with the parameters of `c` otherwise. -/
def codecOk (env : Env) (c : Config) (i : Nat) : Bool :=
  if c.decompress ≠ 0 then (env.BrotliDecompress i).ok
  else (env.BrotliCompress i ⟨c.quality, c.lgwin, c.mode⟩).ok

/-- The number of files one cycle opens: one for each path that is given. -/
def opensPerCycle (c : Config) : Nat :=
  (if c.input_path.isSome then 1 else 0) + (if c.output_path.isSome then 1 else 0)

/-- The actions of one full cycle in which every call succeeds, `o` files
having been opened before it: the input is opened, the output is opened (after
the existence test when `force` is 0), the codec is called once on these two
streams, and both are closed. A path that is absent stands for the standard
stream of the process, which is not opened. -/
def fullCycle (c : Config) (o : Nat) : List Event :=
  let fin : Stream := match c.input_path with
    | none => .stdin
    | some _ => .file o
  let o1 : Nat := match c.input_path with
    | none => o
    | some _ => o + 1
  let fout : Stream := match c.output_path with
    | none => .stdout
    | some _ => .file o1
  (match c.input_path with
    | none => [Event.setmode .stdin]
    | some p => [Event.fopen p .rb (some fin)]) ++
  (match c.output_path with
    | none => [Event.setmode .stdout]
    | some p =>
      (if c.force = 0 then [Event.stat p false] else []) ++ [Event.fopen p .wb (some fout)]) ++
  [if c.decompress ≠ 0 then Event.BrotliDecompress fin fout true
    else Event.BrotliCompress ⟨c.quality, c.lgwin, c.mode⟩ fin fout true] ++
  [Event.fclose fin true, Event.fclose fout true]

/-- The result of the codec call of iteration `i`. -/
def codecResult (env : Env) (c : Config) (i : Nat) : CodecResult :=
  if c.decompress ≠ 0 then env.BrotliDecompress i
  else env.BrotliCompress i ⟨c.quality, c.lgwin, c.mode⟩

/-- The state of the system after one full cycle in which the codec wrote
`written`: the files named by the paths have been opened, and the output
holds what the codec wrote. -/
def cycleWorld (c : Config) (w : World) (written : List Nat) : World :=
  match c.input_path, c.output_path with
  | none, none => { w with stdout := w.stdout ++ written }
  | some _, none => { w with stdout := w.stdout ++ written, opened := w.opened + 1 }
  | none, some q => { (w.setFile q (some written)) with opened := w.opened + 1 }
  | some _, some q => { (w.setFile q (some written)) with opened := w.opened + 2 }

/-- The actions of the cycle in which `BrotliCompress` reports failure, `o`
files having been opened before it: the input is opened, the output is opened
(after the existence test when `force` is 0), the codec is called once and
fails, the diagnostic is written and `unlink` is called on the output path. -/
def failedCycle (c : Config) (o : Nat) : List Event :=
  let fin : Stream := match c.input_path with
    | none => .stdin
    | some _ => .file o
  let o1 : Nat := match c.input_path with
    | none => o
    | some _ => o + 1
  let fout : Stream := match c.output_path with
    | none => .stdout
    | some _ => .file o1
  (match c.input_path with
    | none => [Event.setmode .stdin]
    | some p => [Event.fopen p .rb (some fin)]) ++
  (match c.output_path with
    | none => [Event.setmode .stdout]
    | some p =>
      (if c.force = 0 then [Event.stat p false] else []) ++ [Event.fopen p .wb (some fout)]) ++
  [Event.BrotliCompress ⟨c.quality, c.lgwin, c.mode⟩ fin fout false,
    Event.stderr .compressionFailed, Event.unlink c.output_path]

/-- The actions of `k` full cycles followed by the cycle in which
`BrotliCompress` reports failure, `o` files having been opened before the
first. -/
def cyclesThenFailure (c : Config) : Nat → Nat → List Event
  | 0, o => failedCycle c o
  | k + 1, o => fullCycle c o ++ cyclesThenFailure c k (o + opensPerCycle c)

/-- A file system with a file `in` and a file `old`, in which every file may
be read, written and removed. -/
def sampleWorld : World :=
  { files := fun p =>
      if p = lit "in" then some [1, 2, 3] else if p = lit "old" then some [7] else none
    readable := fun _ => true
    writable := fun _ => true
    removable := fun _ => true
    opened := 0
    stdout := [] }

/-- The same file system, in which no name may be removed. -/
def lockedWorld : World :=
  { sampleWorld with removable := fun _ => false }

/-- Collaborators that always succeed; the codec writes one byte. -/
def sampleEnv : Env :=
  { BrotliCompress := fun _ _ => ⟨true, [9]⟩
    BrotliDecompress := fun _ => ⟨true, [8]⟩
    fclose := fun _ _ => true }

/-- Collaborators that succeed except for the `BrotliCompress` call of
iteration 1, which reports failure after writing one byte. -/
def failingEnv : Env :=
  { BrotliCompress := fun i _ => ⟨decide (i ≠ 1), [9]⟩
    BrotliDecompress := fun _ => ⟨true, [8]⟩
    fclose := fun _ _ => true }

/-! ## Strings and ParseQuality -/


theorem zero_le_char_iff (c : Char) : '0' ≤ c ↔ 48 ≤ c.toNat := Iff.rfl
theorem char_le_nine_iff (c : Char) : c ≤ '9' ↔ c.toNat ≤ 57 := Iff.rfl

theorem toNat_eq_zero_iff (c : Char) : c.toNat = 0 ↔ c = NUL := by
  constructor
  · intro h
    apply Char.ext
    apply UInt32.ext
    exact h
  · intro h; subst h; rfl

theorem toNat_inj (a b : Char) (h : a.toNat = b.toNat) : a = b := by
  apply Char.ext
  apply UInt32.ext
  exact h

theorem strcmp_eq_zero_iff (a b : CStr) (ha : NulFree a) (hb : NulFree b) :
    strcmp a b = 0 ↔ a = b := by
  induction a generalizing b with
  | nil =>
    cases b with
    | nil => simp [strcmp]
    | cons y ys =>
      have hy : y ≠ NUL := hb y (by simp)
      have : y.toNat ≠ 0 := fun h => hy ((toNat_eq_zero_iff y).1 h)
      simp [strcmp]; omega
  | cons x xs ih =>
    have hx : x ≠ NUL := ha x (by simp)
    cases b with
    | nil =>
      have : x.toNat ≠ 0 := fun h => hx ((toNat_eq_zero_iff x).1 h)
      simp [strcmp]; omega
    | cons y ys =>
      have hxs : NulFree xs := fun c hc => ha c (by simp [hc])
      have hys : NulFree ys := fun c hc => hb c (by simp [hc])
      by_cases hxy : x = y
      · subst hxy
        simp [strcmp, hx, ih ys hxs hys]
      · have : x.toNat ≠ y.toNat := fun h => hxy (toNat_inj x y h)
        simp [strcmp, hxy]; omega

theorem strcmp_lit (l a : CStr) (hl : NulFree l) (ha : NulFree a) :
    strcmp l a = 0 ↔ a = l := by
  rw [strcmp_eq_zero_iff l a hl ha]; exact eq_comm

theorem ParseArgvLoop_cons (a : CStr) (rest : List CStr) (c : Config) (ha : NulFree a) :
    ParseArgvLoop (a :: rest) c =
      match rest with
      | [] => applyFlag c (a, none)
      | v :: rest' =>
        (applyFlag c (a, some v)).bind
          (ParseArgvLoop (if isValueFlag a = true then rest' else v :: rest')) := by
  have key : ∀ l : CStr, NulFree l → (strcmp l a = 0 ↔ a = l) :=
    fun l hl => strcmp_lit l a hl ha
  have h1 := key (lit "--force") (by decide)
  have h2 := key (lit "-f") (by decide)
  have h3 := key (lit "--decompress") (by decide)
  have h4 := key (lit "--uncompress") (by decide)
  have h5 := key (lit "-d") (by decide)
  have h6 := key (lit "--verbose") (by decide)
  have h7 := key (lit "-v") (by decide)
  have h8 := key (lit "--input") (by decide)
  have h9 := key (lit "--in") (by decide)
  have h10 := key (lit "-i") (by decide)
  have h11 := key (lit "--output") (by decide)
  have h12 := key (lit "--out") (by decide)
  have h13 := key (lit "-o") (by decide)
  have h14 := key (lit "--quality") (by decide)
  have h15 := key (lit "-q") (by decide)
  have h16 := key (lit "--repeat") (by decide)
  have h17 := key (lit "-r") (by decide)
  have h18 := key (lit "--window") (by decide)
  have h19 := key (lit "-w") (by decide)
  have h20 := key (lit "--mode") (by decide)
  have h21 := key (lit "-m") (by decide)
  by_cases p1 : a = lit "--force" ∨ a = lit "-f"
  · have hf : flagOf a = some .force := by unfold flagOf; rw [if_pos p1]
    cases rest <;> rw [ParseArgvLoop] <;>
      simp [h1, h2, h3, h4, h5, h6, h7, h8, h9, h10, h11, h12, h13, h14, h15, h16, h17, h18, h19, h20, h21, p1, applyFlag, isValueFlag, hf,
        Flag.takesValue] <;>
      (try split) <;> simp [ParseArgvLoop]
  by_cases p2 : a = lit "--decompress" ∨ a = lit "--uncompress" ∨ a = lit "-d"
  · have hf : flagOf a = some .decompress := by unfold flagOf; rw [if_neg p1, if_pos p2]
    cases rest <;> rw [ParseArgvLoop] <;>
      simp [h1, h2, h3, h4, h5, h6, h7, h8, h9, h10, h11, h12, h13, h14, h15, h16, h17, h18, h19, h20, h21, p1, p2, applyFlag, isValueFlag, hf,
        Flag.takesValue] <;>
      (try split) <;> simp [ParseArgvLoop]
  by_cases p3 : a = lit "--verbose" ∨ a = lit "-v"
  · have hf : flagOf a = some .verbose := by unfold flagOf; rw [if_neg p1, if_neg p2, if_pos p3]
    cases rest <;> rw [ParseArgvLoop] <;>
      simp [h1, h2, h3, h4, h5, h6, h7, h8, h9, h10, h11, h12, h13, h14, h15, h16, h17, h18, h19, h20, h21, p1, p2, p3, applyFlag, isValueFlag, hf,
        Flag.takesValue] <;>
      (try split) <;> simp [ParseArgvLoop]
  by_cases p4 : a = lit "--input" ∨ a = lit "--in" ∨ a = lit "-i"
  · have hf : flagOf a = some .input := by unfold flagOf; rw [if_neg p1, if_neg p2, if_neg p3, if_pos p4]
    cases rest <;> rw [ParseArgvLoop] <;>
      simp [h1, h2, h3, h4, h5, h6, h7, h8, h9, h10, h11, h12, h13, h14, h15, h16, h17, h18, h19, h20, h21, p1, p2, p3, p4, applyFlag, isValueFlag, hf,
        Flag.takesValue] <;>
      (try split) <;> simp [ParseArgvLoop]
  by_cases p5 : a = lit "--output" ∨ a = lit "--out" ∨ a = lit "-o"
  · have hf : flagOf a = some .output := by unfold flagOf; rw [if_neg p1, if_neg p2, if_neg p3, if_neg p4, if_pos p5]
    cases rest <;> rw [ParseArgvLoop] <;>
      simp [h1, h2, h3, h4, h5, h6, h7, h8, h9, h10, h11, h12, h13, h14, h15, h16, h17, h18, h19, h20, h21, p1, p2, p3, p4, p5, applyFlag, isValueFlag, hf,
        Flag.takesValue] <;>
      (try split) <;> simp [ParseArgvLoop]
  by_cases p6 : a = lit "--quality" ∨ a = lit "-q"
  · have hf : flagOf a = some .quality := by unfold flagOf; rw [if_neg p1, if_neg p2, if_neg p3, if_neg p4, if_neg p5, if_pos p6]
    cases rest <;> rw [ParseArgvLoop] <;>
      simp [h1, h2, h3, h4, h5, h6, h7, h8, h9, h10, h11, h12, h13, h14, h15, h16, h17, h18, h19, h20, h21, p1, p2, p3, p4, p5, p6, applyFlag, isValueFlag, hf,
        Flag.takesValue] <;>
      (try split) <;> simp [ParseArgvLoop]
  by_cases p7 : a = lit "--repeat" ∨ a = lit "-r"
  · have hf : flagOf a = some .repeat_ := by unfold flagOf; rw [if_neg p1, if_neg p2, if_neg p3, if_neg p4, if_neg p5, if_neg p6, if_pos p7]
    cases rest <;> rw [ParseArgvLoop] <;>
      simp [h1, h2, h3, h4, h5, h6, h7, h8, h9, h10, h11, h12, h13, h14, h15, h16, h17, h18, h19, h20, h21, p1, p2, p3, p4, p5, p6, p7, applyFlag, isValueFlag, hf,
        Flag.takesValue] <;>
      (try split) <;> simp [ParseArgvLoop]
  by_cases p8 : a = lit "--window" ∨ a = lit "-w"
  · have hf : flagOf a = some .window := by unfold flagOf; rw [if_neg p1, if_neg p2, if_neg p3, if_neg p4, if_neg p5, if_neg p6, if_neg p7, if_pos p8]
    cases rest <;> rw [ParseArgvLoop] <;>
      simp [h1, h2, h3, h4, h5, h6, h7, h8, h9, h10, h11, h12, h13, h14, h15, h16, h17, h18, h19, h20, h21, p1, p2, p3, p4, p5, p6, p7, p8, applyFlag, isValueFlag, hf,
        Flag.takesValue] <;>
      (try split) <;> simp [ParseArgvLoop]
  by_cases p9 : a = lit "--mode" ∨ a = lit "-m"
  · have hf : flagOf a = some .mode := by unfold flagOf; rw [if_neg p1, if_neg p2, if_neg p3, if_neg p4, if_neg p5, if_neg p6, if_neg p7, if_neg p8, if_pos p9]
    cases rest <;> rw [ParseArgvLoop] <;>
      simp [h1, h2, h3, h4, h5, h6, h7, h8, h9, h10, h11, h12, h13, h14, h15, h16, h17, h18, h19, h20, h21, p1, p2, p3, p4, p5, p6, p7, p8, p9, applyFlag, isValueFlag, hf,
        Flag.takesValue] <;>
      (try split) <;> simp [ParseArgvLoop]
  have hf : flagOf a = none := by unfold flagOf; rw [if_neg p1, if_neg p2, if_neg p3, if_neg p4, if_neg p5, if_neg p6, if_neg p7, if_neg p8, if_neg p9]
  cases rest <;> rw [ParseArgvLoop] <;>
    simp [h1, h2, h3, h4, h5, h6, h7, h8, h9, h10, h11, h12, h13, h14, h15, h16, h17, h18, h19, h20, h21, p1, p2, p3, p4, p5, p6, p7, p8, p9, applyFlag, isValueFlag, hf]

theorem ParseArgvLoop_eq_applyFlags (n : Nat) :
    ∀ (args : List CStr) (c : Config), args.length ≤ n → (∀ a ∈ args, NulFree a) →
      ParseArgvLoop args c = applyFlags (flagTokens args) c := by
  induction n with
  | zero =>
    intro args c hlen _
    have : args = [] := List.length_eq_zero.1 (Nat.le_zero.1 hlen)
    subst this
    simp [ParseArgvLoop, flagTokens, applyFlags]
  | succ n ih =>
    intro args c hlen hnul
    match args, hlen, hnul with
    | [], _, _ => simp [ParseArgvLoop, flagTokens, applyFlags]
    | [a], _, hnul =>
      rw [ParseArgvLoop_cons a [] c (hnul a (by simp))]
      simp only [flagTokens, applyFlags]
      cases applyFlag c (a, none) <;> simp [applyFlags]
    | a :: v :: rest, hlen, hnul =>
      rw [ParseArgvLoop_cons a (v :: rest) c (hnul a (by simp))]
      simp only [flagTokens, applyFlags]
      have hrest : ∀ x ∈ rest, NulFree x := fun x hx => hnul x (by simp [hx])
      have hvrest : ∀ x ∈ v :: rest, NulFree x := fun x hx => hnul x (by simp [hx])
      simp only [List.length_cons] at hlen
      by_cases hv : isValueFlag a = true
      · simp only [hv, if_true]
        congr 1
        funext c1
        exact ih rest c1 (by omega) hrest
      · simp only [hv]
        congr 1
        funext c1
        exact ih (v :: rest) c1 (by simp only [List.length_cons]; omega) hvrest

theorem ParseQuality_fst (s : CStr) (q q1 : Int) :
    (ParseQuality s q).1 = (ParseQuality s q1).1 := by
  unfold ParseQuality
  split_ifs <;> rfl

theorem applyFlag_usageFault (c : Config) (t : CStr × Option CStr)
    (h : usageFault t = true) : applyFlag c t = none := by
  obtain ⟨a, v⟩ := t
  unfold usageFault at h
  unfold applyFlag
  cases hf : flagOf a with
  | none => simp
  | some f =>
    cases v with
    | none => cases f <;> simp_all [Flag.takesValue]
    | some v =>
      simp only [hf, Bool.and_eq_true, Bool.not_eq_true'] at h
      cases f <;> simp_all [Flag.isNumeric, ParseQuality_fst v _ 0]

theorem applyFlags_usageFault (ts : List (CStr × Option CStr)) (c : Config)
    (t : CStr × Option CStr) (ht : t ∈ ts) (h : usageFault t = true) :
    applyFlags ts c = none := by
  induction ts generalizing c with
  | nil => simp at ht
  | cons t0 ts ih =>
    simp only [applyFlags]
    rcases List.mem_cons.1 ht with h0 | h1
    · subst h0
      simp [applyFlag_usageFault c t h]
    · cases h2 : applyFlag c t0 with
      | none => simp
      | some c1 => simpa using ih c1 h1


theorem ParseArgv_eq_applyFlags (argv0 : CStr) (args : List CStr) (c : Config)
    (h : ∀ a ∈ args, NulFree a) :
    ParseArgv argv0 args c = applyFlags (flagTokens args) (ParseArgvInit argv0 c) :=
  ParseArgvLoop_eq_applyFlags args.length args _ (Nat.le_refl _) h

theorem applyFlag_some (c c1 : Config) (t : CStr × Option CStr)
    (h : applyFlag c t = some c1) :
    ((flagOf t.1 ≠ some .force → c1.force = c.force) ∧
      (flagOf t.1 = some .force → c.force = 0 ∧ c1.force = 1)) ∧
    ((flagOf t.1 ≠ some .verbose → c1.verbose = c.verbose) ∧
      (flagOf t.1 = some .verbose → c.verbose = 0 ∧ c1.verbose = 1)) ∧
    ((flagOf t.1 ≠ some .decompress → c1.decompress = c.decompress) ∧
      (flagOf t.1 = some .decompress → c1.decompress = 1)) ∧
    ((flagOf t.1 ≠ some .input → c1.input_path = c.input_path) ∧
      (flagOf t.1 = some .input → c.input_path = none ∧ c1.input_path ≠ none)) ∧
    ((flagOf t.1 ≠ some .output → c1.output_path = c.output_path) ∧
      (flagOf t.1 = some .output → c.output_path = none ∧ c1.output_path ≠ none)) ∧
    ((flagOf t.1 ≠ some .quality → c1.quality = c.quality) ∧
      (flagOf t.1 = some .quality → ∃ v, t.2 = some v ∧
        (ParseQuality v c.quality).1 = true ∧ c1.quality = (ParseQuality v c.quality).2)) ∧
    ((flagOf t.1 ≠ some .repeat_ → c1.repeat_ = c.repeat_) ∧
      (flagOf t.1 = some .repeat_ → ∃ v, t.2 = some v ∧
        (ParseQuality v c.repeat_).1 = true ∧ c1.repeat_ = (ParseQuality v c.repeat_).2)) ∧
    ((flagOf t.1 ≠ some .window → c1.lgwin = c.lgwin) ∧
      (flagOf t.1 = some .window → ∃ v, t.2 = some v ∧
        (ParseQuality v c.lgwin).1 = true ∧ c1.lgwin = (ParseQuality v c.lgwin).2)) ∧
    ((flagOf t.1 ≠ some .mode → c1.mode = c.mode) ∧
      (flagOf t.1 = some .mode → ∃ v, t.2 = some v ∧
        (ParseQuality v c.mode).1 = true ∧ c1.mode = (ParseQuality v c.mode).2)) := by
  obtain ⟨a, v⟩ := t
  unfold applyFlag at h
  cases hf : flagOf a with
  | none => simp [hf] at h
  | some f =>
    cases v with
    | none =>
      cases f <;> simp only [hf] at h <;> (try split at h) <;> simp_all <;>
        (subst h; simp)
    | some v =>
      cases f <;> simp only [hf] at h <;> (try split at h) <;> simp_all <;>
        (subst h; simp)


theorem applyFlags_cons_some (t : CStr × Option CStr) (ts : List (CStr × Option CStr))
    (c c1 : Config) (h : applyFlags (t :: ts) c = some c1) :
    ∃ c0, applyFlag c t = some c0 ∧ applyFlags ts c0 = some c1 := by
  simp only [applyFlags] at h
  cases h0 : applyFlag c t with
  | none => simp [h0] at h
  | some c0 => exact ⟨c0, rfl, by simpa [h0] using h⟩

theorem applyFlags_frame {α : Type} (get : Config → α) (f : Flag)
    (hstep : ∀ c c1 t, applyFlag c t = some c1 → flagOf t.1 ≠ some f → get c1 = get c)
    (ts : List (CStr × Option CStr)) (c c1 : Config) (h : applyFlags ts c = some c1)
    (hno : ∀ t ∈ ts, flagOf t.1 ≠ some f) : get c1 = get c := by
  induction ts generalizing c with
  | nil => simp only [applyFlags, Option.some.injEq] at h; rw [h]
  | cons t ts ih =>
    obtain ⟨c0, h0, h1⟩ := applyFlags_cons_some t ts c c1 h
    rw [ih c0 h1 (fun x hx => hno x (by simp [hx]))]
    exact hstep c c0 t h0 (hno t (by simp))

theorem applyFlags_once (set : Config → Prop) (f : Flag)
    (hstep : ∀ c c1 t, applyFlag c t = some c1 →
      (flagOf t.1 ≠ some f → (set c1 ↔ set c)) ∧ (flagOf t.1 = some f → ¬ set c ∧ set c1))
    (ts : List (CStr × Option CStr)) (c c1 : Config) (h : applyFlags ts c = some c1) :
    occurrences f ts ≤ 1 ∧ (set c → occurrences f ts = 0) ∧
      (occurrences f ts = 0 → (set c1 ↔ set c)) ∧ (1 ≤ occurrences f ts → set c1) := by
  induction ts generalizing c with
  | nil =>
    simp only [applyFlags, Option.some.injEq] at h
    subst h
    simp [occurrences]
  | cons t ts ih =>
    obtain ⟨c0, h0, h1⟩ := applyFlags_cons_some t ts c c1 h
    obtain ⟨i1, i2, i3, i4⟩ := ih c0 h1
    obtain ⟨s1, s2⟩ := hstep c c0 t h0
    by_cases hf : flagOf t.1 = some f
    · obtain ⟨n1, n2⟩ := s2 hf
      have hz := i2 n2
      simp only [occurrences, hf, if_true, hz]
      exact ⟨by omega, fun hc => absurd hc n1, fun hc => by omega, fun _ => (i3 hz).2 n2⟩
    · have e := s1 hf
      simp only [occurrences, hf, if_false, Nat.zero_add]
      exact ⟨i1, fun hc => i2 (e.2 hc), fun hc => (i3 hc).trans e, i4⟩

theorem applyFlag_ok (c : Config) (t : CStr × Option CStr) (hfault : usageFault t = false)
    (hforce : flagOf t.1 = some .force → c.force = 0)
    (hverbose : flagOf t.1 = some .verbose → c.verbose = 0)
    (hin : flagOf t.1 = some .input → c.input_path = none)
    (hout : flagOf t.1 = some .output → c.output_path = none) :
    ∃ c1, applyFlag c t = some c1 := by
  obtain ⟨a, v⟩ := t
  unfold usageFault at hfault
  unfold applyFlag
  cases hf : flagOf a with
  | none => simp [hf] at hfault
  | some f =>
    cases v with
    | none =>
      cases f <;> simp_all [Flag.takesValue]
    | some v =>
      simp only [hf] at hfault
      cases f <;> simp_all [Flag.isNumeric, ParseQuality_fst v _ 0]

theorem occurrences_step (f : Flag) (t : CStr × Option CStr)
    (ts : List (CStr × Option CStr)) (sc sc0 : Prop)
    (hframe : flagOf t.1 ≠ some f → (sc0 ↔ sc))
    (hle : occurrences f (t :: ts) ≤ 1) (hz : sc → occurrences f (t :: ts) = 0) :
    occurrences f ts ≤ 1 ∧ (sc0 → occurrences f ts = 0) := by
  by_cases hf : flagOf t.1 = some f
  · simp only [occurrences, hf, if_true] at hle hz
    exact ⟨by omega, fun _ => by omega⟩
  · simp only [occurrences, hf, if_false, Nat.zero_add] at hle hz
    exact ⟨hle, fun h0 => hz ((hframe hf).1 h0)⟩

theorem occurrences_head (f : Flag) (t : CStr × Option CStr)
    (ts : List (CStr × Option CStr)) (sc : Prop)
    (hz : ¬ sc → occurrences f (t :: ts) = 0) (hf : flagOf t.1 = some f) : sc := by
  by_contra hsc
  have := hz hsc
  simp only [occurrences, hf, if_true] at this
  omega

theorem applyFlags_ok (ts : List (CStr × Option CStr)) :
    ∀ c : Config, (∀ t ∈ ts, usageFault t = false) →
      occurrences .force ts ≤ 1 → (c.force ≠ 0 → occurrences .force ts = 0) →
      occurrences .verbose ts ≤ 1 → (c.verbose ≠ 0 → occurrences .verbose ts = 0) →
      occurrences .input ts ≤ 1 → (c.input_path ≠ none → occurrences .input ts = 0) →
      occurrences .output ts ≤ 1 → (c.output_path ≠ none → occurrences .output ts = 0) →
      ∃ c1, applyFlags ts c = some c1 := by
  induction ts with
  | nil => intro c _ _ _ _ _ _ _ _ _; exact ⟨c, rfl⟩
  | cons t ts ih =>
    intro c hgood f1 f2 v1 v2 n1 n2 o1 o2
    have key : ∀ c0, applyFlag c t = some c0 →
        ∃ c1, applyFlags ts c0 = some c1 := by
      intro c0 h0
      obtain ⟨⟨a1, _⟩, ⟨a2, _⟩, _, ⟨a4, _⟩, ⟨a5, _⟩, _⟩ := applyFlag_some c c0 t h0
      obtain ⟨x1, x2⟩ := occurrences_step .force t ts (c.force ≠ 0) (c0.force ≠ 0)
        (fun h => by rw [a1 h]) f1 f2
      obtain ⟨y1, y2⟩ := occurrences_step .verbose t ts (c.verbose ≠ 0) (c0.verbose ≠ 0)
        (fun h => by rw [a2 h]) v1 v2
      obtain ⟨z1, z2⟩ := occurrences_step .input t ts (c.input_path ≠ none)
        (c0.input_path ≠ none) (fun h => by rw [a4 h]) n1 n2
      obtain ⟨u1, u2⟩ := occurrences_step .output t ts (c.output_path ≠ none)
        (c0.output_path ≠ none) (fun h => by rw [a5 h]) o1 o2
      exact ih c0 (fun x hx => hgood x (by simp [hx])) x1 x2 y1 y2 z1 z2 u1 u2
    obtain ⟨c0, h0⟩ := applyFlag_ok c t (hgood t (by simp))
      (occurrences_head .force t ts _ f2) (occurrences_head .verbose t ts _ v2)
      (occurrences_head .input t ts _ n2) (occurrences_head .output t ts _ o2)
    obtain ⟨c1, h1⟩ := key c0 h0
    exact ⟨c1, by simp [applyFlags, h0, h1]⟩


theorem strlen_eq_length (s : CStr) (h : NulFree s) : strlen s = s.length := by
  induction s with
  | nil => rfl
  | cons x xs ih =>
    have hx : x ≠ NUL := h x (by simp)
    simp [strlen, hx, ih (fun c hc => h c (by simp [hc]))]

theorem unbro_test_iff (argv0 : CStr) (h : NulFree argv0) :
    (strlen argv0 ≥ 5 ∧ strcmp (argv0.drop (strlen argv0 - 5)) (lit "unbro") = 0) ↔
      lit "unbro" <:+ argv0 := by
  rw [strlen_eq_length argv0 h]
  have hd : NulFree (argv0.drop (argv0.length - 5)) :=
    fun c hc => h c (List.mem_of_mem_drop hc)
  rw [strcmp_eq_zero_iff _ _ hd (by decide)]
  have h5 : (lit "unbro").length = 5 := by decide
  constructor
  · rintro ⟨_, h2⟩
    rw [List.suffix_iff_eq_drop, h5]
    exact h2.symm
  · intro hs
    have hl := hs.length_le
    rw [h5] at hl
    refine ⟨hl, ?_⟩
    rw [List.suffix_iff_eq_drop, h5] at hs
    exact hs.symm

theorem mem_occurrences (f : Flag) (ts : List (CStr × Option CStr)) :
    1 ≤ occurrences f ts ↔ ∃ t ∈ ts, flagOf t.1 = some f := by
  induction ts with
  | nil => simp [occurrences]
  | cons t ts ih =>
    by_cases hf : flagOf t.1 = some f
    · simp [occurrences, hf]
    · simp only [occurrences, hf, if_false, Nat.zero_add, ih, List.mem_cons]
      constructor
      · rintro ⟨x, hx, hxf⟩; exact ⟨x, Or.inr hx, hxf⟩
      · rintro ⟨x, hx | hx, hxf⟩
        · subst hx; exact absurd hxf hf
        · exact ⟨x, hx, hxf⟩

theorem applyFlags_decompress (ts : List (CStr × Option CStr)) (c c1 : Config)
    (h : applyFlags ts c = some c1) (h01 : c.decompress = 0 ∨ c.decompress = 1) :
    (c1.decompress = 0 ∨ c1.decompress = 1) ∧
    (c1.decompress ≠ 0 ↔ (c.decompress ≠ 0 ∨ ∃ t ∈ ts, flagOf t.1 = some .decompress)) := by
  induction ts generalizing c with
  | nil =>
    simp only [applyFlags, Option.some.injEq] at h
    subst h
    simp [h01]
  | cons t ts ih =>
    obtain ⟨c0, h0, h1⟩ := applyFlags_cons_some t ts c c1 h
    obtain ⟨_, _, ⟨d1, d2⟩, _⟩ := applyFlag_some c c0 t h0
    by_cases hf : flagOf t.1 = some .decompress
    · have e := d2 hf
      obtain ⟨r1, r2⟩ := ih c0 h1 (Or.inr e)
      refine ⟨r1, ?_⟩
      rw [r2]
      simp [e, hf]
    · have e := d1 hf
      obtain ⟨r1, r2⟩ := ih c0 h1 (by rw [e]; exact h01)
      refine ⟨r1, ?_⟩
      rw [r2, e]
      simp [hf]


theorem ParseQuality_char (s : CStr) (q : Int) (hs : NulFree s) :
    ((ParseQuality s q).1 = true ↔
      (s.length = 1 ∨ s.length = 2) ∧ ∀ c ∈ s, IsDigit c) ∧
    ((ParseQuality s q).1 = true →
      (ParseQuality s q).2 = decimalValue s ∧
        0 ≤ (ParseQuality s q).2 ∧ (ParseQuality s q).2 ≤ 99) := by
  have h48 : (('0' : Char).toNat : Int) = 48 := by decide
  match s, hs with
  | [], _ =>
    have : ¬ ('0' ≤ NUL) := by decide
    simp [ParseQuality, charAt, this]
  | [a], hs =>
    have hN : ¬ ('0' ≤ NUL) := by decide
    by_cases ha : '0' ≤ a ∧ a ≤ '9'
    · have h1 := (zero_le_char_iff a).1 ha.1
      have h2 := (char_le_nine_iff a).1 ha.2
      simp [ParseQuality, charAt, ha, hN, IsDigit, decimalValue, h48]
      omega
    · simp [ParseQuality, charAt, ha, IsDigit]
  | [a, b], hs =>
    have hb0 : b ≠ NUL := hs b (by simp)
    by_cases ha : '0' ≤ a ∧ a ≤ '9'
    · have h1 := (zero_le_char_iff a).1 ha.1
      have h2 := (char_le_nine_iff a).1 ha.2
      by_cases hb : '0' ≤ b ∧ b ≤ '9'
      · have h3 := (zero_le_char_iff b).1 hb.1
        have h4 := (char_le_nine_iff b).1 hb.2
        simp [ParseQuality, charAt, ha, hb, IsDigit, decimalValue, h48]
        omega
      · simp [ParseQuality, charAt, ha, hb, IsDigit, hb0]
    · simp [ParseQuality, charAt, ha, IsDigit]
  | a :: b :: c :: rest, hs =>
    have hb0 : b ≠ NUL := hs b (by simp)
    have hc0 : c ≠ NUL := hs c (by simp)
    by_cases ha : '0' ≤ a ∧ a ≤ '9'
    · by_cases hb : '0' ≤ b ∧ b ≤ '9'
      · simp [ParseQuality, charAt, ha, hb, hc0]
      · simp [ParseQuality, charAt, ha, hb, hb0]
    · simp [ParseQuality, charAt, ha]


theorem ParseQuality_pos (s : CStr) (q : Int) (hs : NulFree s)
    (h : (ParseQuality s q).1 = true) (h0 : s ≠ lit "0") (h00 : s ≠ lit "00") :
    1 ≤ (ParseQuality s q).2 := by
  obtain ⟨hiff, hval⟩ := ParseQuality_char s q hs
  obtain ⟨hv, _, _⟩ := hval h
  obtain ⟨hlen, hdig⟩ := hiff.1 h
  rw [hv]
  match s, hlen, hdig, h0, h00 with
  | [a], _, hdig, h0, _ =>
    have ha := hdig a (by simp)
    have h1 := (zero_le_char_iff a).1 ha.1
    have hne : a.toNat ≠ 48 := by
      intro he
      apply h0
      have : a = '0' := toNat_inj a '0' he
      rw [this]; rfl
    simp [decimalValue]
    omega
  | [a, b], _, hdig, _, h00 =>
    have ha := hdig a (by simp)
    have hb := hdig b (by simp)
    have h1 := (zero_le_char_iff a).1 ha.1
    have h3 := (zero_le_char_iff b).1 hb.1
    have hne : ¬ (a.toNat = 48 ∧ b.toNat = 48) := by
      rintro ⟨he1, he2⟩
      apply h00
      have e1 : a = '0' := toNat_inj a '0' he1
      have e2 : b = '0' := toNat_inj b '0' he2
      rw [e1, e2]; rfl
    simp [decimalValue]
    omega
  | [], hlen, _, _, _ => simp at hlen
  | _ :: _ :: _ :: _, hlen, _, _, _ => simp at hlen

theorem flagTokens_mem (n : Nat) :
    ∀ (args : List CStr) (t : CStr × Option CStr), args.length ≤ n → t ∈ flagTokens args →
      t.1 ∈ args ∧ ∀ v, t.2 = some v → v ∈ args := by
  induction n with
  | zero =>
    intro args t hlen ht
    have : args = [] := List.length_eq_zero.1 (Nat.le_zero.1 hlen)
    subst this
    simp [flagTokens] at ht
  | succ n ih =>
    intro args t hlen ht
    match args, hlen, ht with
    | [], _, ht => simp [flagTokens] at ht
    | [a], _, ht =>
      simp only [flagTokens, List.mem_singleton] at ht
      subst ht
      simp
    | a :: v :: rest, hlen, ht =>
      simp only [flagTokens, List.mem_cons] at ht
      simp only [List.length_cons] at hlen
      rcases ht with ht | ht
      · subst ht; simp
      · have hsub : t ∈ flagTokens rest ∨ t ∈ flagTokens (v :: rest) := by
          by_cases hv : isValueFlag a = true
          · simp only [hv, if_true] at ht; exact Or.inl ht
          · simp only [hv] at ht; exact Or.inr ht
        rcases hsub with hr | hr
        · obtain ⟨m1, m2⟩ := ih rest t (by omega) hr
          exact ⟨by simp [m1], fun x hx => by simp [m2 x hx]⟩
        · obtain ⟨m1, m2⟩ := ih (v :: rest) t (by simp only [List.length_cons]; omega) hr
          exact ⟨List.mem_cons_of_mem _ m1, fun x hx => List.mem_cons_of_mem _ (m2 x hx)⟩

theorem applyFlags_repeat (ts : List (CStr × Option CStr)) (c c1 : Config)
    (hnul : ∀ t ∈ ts, ∀ v, t.2 = some v → NulFree v)
    (h : applyFlags ts c = some c1) (hc : 0 ≤ c.repeat_ ∧ c.repeat_ ≤ 99) :
    (0 ≤ c1.repeat_ ∧ c1.repeat_ ≤ 99) ∧
    (1 ≤ c.repeat_ →
      (∀ t ∈ ts, flagOf t.1 = some .repeat_ →
        t.2 ≠ some (lit "0") ∧ t.2 ≠ some (lit "00")) →
      1 ≤ c1.repeat_) := by
  induction ts generalizing c with
  | nil =>
    simp only [applyFlags, Option.some.injEq] at h
    subst h
    exact ⟨hc, fun h1 _ => h1⟩
  | cons t ts ih =>
    obtain ⟨c0, h0, h1⟩ := applyFlags_cons_some t ts c c1 h
    obtain ⟨_, _, _, _, _, _, ⟨r1, r2⟩, _⟩ := applyFlag_some c c0 t h0
    have hnul1 : ∀ x ∈ ts, ∀ v, x.2 = some v → NulFree v :=
      fun x hx => hnul x (by simp [hx])
    by_cases hf : flagOf t.1 = some .repeat_
    · obtain ⟨v, hv, hacc, hval⟩ := r2 hf
      have hvn : NulFree v := hnul t (by simp) v hv
      obtain ⟨_, hrange⟩ := ParseQuality_char v c.repeat_ hvn
      obtain ⟨_, lo, hi⟩ := hrange hacc
      obtain ⟨i1, i2⟩ := ih c0 hnul1 h1 (by rw [hval]; exact ⟨lo, hi⟩)
      refine ⟨i1, fun _ hz => i2 ?_ (fun x hx => hz x (by simp [hx]))⟩
      obtain ⟨z1, z2⟩ := hz t (by simp) hf
      rw [hval]
      apply ParseQuality_pos v c.repeat_ hvn hacc
      · intro e; apply z1; rw [hv, e]
      · intro e; apply z2; rw [hv, e]
    · have e := r1 hf
      obtain ⟨i1, i2⟩ := ih c0 hnul1 h1 (by rw [e]; exact hc)
      exact ⟨i1, fun hpos hz => i2 (by rw [e]; exact hpos) (fun x hx => hz x (by simp [hx]))⟩


/-! ## ParseQuality and ParseArgv: the properties -/

/-- C3: `ParseQuality` returns true on a string exactly when the string is
one or two ASCII digits and nothing else; when it returns true, the integer
it stores is the decimal value of those digits, which lies in 0..99. -/
theorem ParseQuality_accepts_iff (s : CStr) (q : Int) (hs : NulFree s) :
    ((ParseQuality s q).1 = true ↔
      (s.length = 1 ∨ s.length = 2) ∧ ∀ c ∈ s, IsDigit c) ∧
    ((ParseQuality s q).1 = true →
      (ParseQuality s q).2 = decimalValue s ∧
        0 ≤ (ParseQuality s q).2 ∧ (ParseQuality s q).2 ≤ 99) :=
  ParseQuality_char s q hs

theorem ParseQuality_accepts_iff_witness :
    NulFree (lit "42") ∧
    (((ParseQuality (lit "42") 7).1 = true ↔
      ((lit "42").length = 1 ∨ (lit "42").length = 2) ∧ ∀ c ∈ lit "42", IsDigit c) ∧
    ((ParseQuality (lit "42") 7).1 = true →
      (ParseQuality (lit "42") 7).2 = decimalValue (lit "42") ∧
        0 ≤ (ParseQuality (lit "42") 7).2 ∧ (ParseQuality (lit "42") 7).2 ≤ 99)) :=
  ⟨by decide, ParseQuality_accepts_iff (lit "42") 7 (by decide)⟩

/-- C5: `ParseArgv` ends in the usage error (help text, exit status 1, nothing
else done) for every argument list that has, at a position not consumed as
the value of a preceding value flag, a token that is none of the recognised
spellings, or a value flag as the last argument, or a numeric value flag
followed by a token on which `ParseQuality` returns false. -/
theorem ParseArgv_usage_error (env : Env) (w : World) (argv0 : CStr) (args : List CStr)
    (c : Config) (hargs : ∀ a ∈ args, NulFree a) (t : CStr × Option CStr)
    (ht : t ∈ flagTokens args) (hfault : usageFault t = true) :
    ParseArgv argv0 args c = none ∧
    (main env argv0 args w).status = 1 ∧
    (main env argv0 args w).trace = [.stderr .usage] ∧
    (main env argv0 args w).world = w := by
  have hnone : ∀ c0, ParseArgv argv0 args c0 = none := fun c0 => by
    rw [ParseArgv_eq_applyFlags argv0 args c0 hargs]
    exact applyFlags_usageFault _ _ t ht hfault
  refine ⟨hnone c, ?_⟩
  simp [main, hnone mainInit]

theorem ParseArgv_usage_error_witness :
    (∀ a ∈ [lit "-f", lit "--quality", lit "abc"], NulFree a) ∧
    (lit "--quality", some (lit "abc")) ∈ flagTokens [lit "-f", lit "--quality", lit "abc"] ∧
    usageFault (lit "--quality", some (lit "abc")) = true ∧
    ParseArgv (lit "bro") [lit "-f", lit "--quality", lit "abc"] mainInit = none :=
  ⟨by decide, by decide, by decide,
    (ParseArgv_usage_error sampleEnv sampleWorld
      (lit "bro") [lit "-f", lit "--quality", lit "abc"] mainInit (by decide)
      (lit "--quality", some (lit "abc")) (by decide) (by decide)).1⟩



/-- C6, as stated, fails: the list `-f -v -i a -i b` has one force flag, one
verbose flag and no faulty token, and `ParseArgv` ends in the usage error,
because the input flag occurs twice. -/
theorem ParseArgv_force_verbose_counterexample :
    (∀ a ∈ [lit "-f", lit "-v", lit "-i", lit "a", lit "-i", lit "b"], NulFree a) ∧
    occurrences .force
      (flagTokens [lit "-f", lit "-v", lit "-i", lit "a", lit "-i", lit "b"]) = 1 ∧
    occurrences .verbose
      (flagTokens [lit "-f", lit "-v", lit "-i", lit "a", lit "-i", lit "b"]) = 1 ∧
    (∀ t ∈ flagTokens [lit "-f", lit "-v", lit "-i", lit "a", lit "-i", lit "b"],
      usageFault t = false) ∧
    ParseArgv (lit "bro") [lit "-f", lit "-v", lit "-i", lit "a", lit "-i", lit "b"]
      mainInit = none := by
  decide


/-- C6 (amended): `ParseArgv` ends in the usage error for every argument list
in which a force flag occurs twice in flag position, and likewise for a
verbose flag; an argument list with exactly one occurrence of each, no faulty
token, at most one input flag and at most one output flag is accepted with
force = 1 and verbose = 1. -/
theorem ParseArgv_force_verbose (argv0 : CStr) (args : List CStr) (c : Config)
    (hargs : ∀ a ∈ args, NulFree a) :
    (2 ≤ occurrences .force (flagTokens args) → ParseArgv argv0 args c = none) ∧
    (2 ≤ occurrences .verbose (flagTokens args) → ParseArgv argv0 args c = none) ∧
    (occurrences .force (flagTokens args) = 1 →
      occurrences .verbose (flagTokens args) = 1 →
      (∀ t ∈ flagTokens args, usageFault t = false) →
      occurrences .input (flagTokens args) ≤ 1 →
      occurrences .output (flagTokens args) ≤ 1 →
      ∃ c1, ParseArgv argv0 args c = some c1 ∧ c1.force = 1 ∧ c1.verbose = 1) := by
  rw [ParseArgv_eq_applyFlags argv0 args c hargs]
  have hF : ∀ c c1 t, applyFlag c t = some c1 →
      (flagOf t.1 ≠ some .force → (c1.force = 1 ↔ c.force = 1)) ∧
      (flagOf t.1 = some .force → ¬ c.force = 1 ∧ c1.force = 1) := by
    intro c c1 t h
    obtain ⟨⟨a1, a2⟩, _⟩ := applyFlag_some c c1 t h
    exact ⟨fun hf => by rw [a1 hf], fun hf => by
      obtain ⟨z, o⟩ := a2 hf
      exact ⟨by rw [z]; decide, o⟩⟩
  have hV : ∀ c c1 t, applyFlag c t = some c1 →
      (flagOf t.1 ≠ some .verbose → (c1.verbose = 1 ↔ c.verbose = 1)) ∧
      (flagOf t.1 = some .verbose → ¬ c.verbose = 1 ∧ c1.verbose = 1) := by
    intro c c1 t h
    obtain ⟨_, ⟨a1, a2⟩, _⟩ := applyFlag_some c c1 t h
    exact ⟨fun hf => by rw [a1 hf], fun hf => by
      obtain ⟨z, o⟩ := a2 hf
      exact ⟨by rw [z]; decide, o⟩⟩
  refine ⟨fun h2 => ?_, fun h2 => ?_, fun f1 v1 hgood i1 o1 => ?_⟩
  · cases hr : applyFlags (flagTokens args) (ParseArgvInit argv0 c) with
    | none => rfl
    | some c1 =>
      have := (applyFlags_once (fun x => x.force = 1) .force hF _ _ c1 hr).1
      omega
  · cases hr : applyFlags (flagTokens args) (ParseArgvInit argv0 c) with
    | none => rfl
    | some c1 =>
      have := (applyFlags_once (fun x => x.verbose = 1) .verbose hV _ _ c1 hr).1
      omega
  · obtain ⟨c1, hc1⟩ := applyFlags_ok (flagTokens args) (ParseArgvInit argv0 c) hgood
      (by omega) (fun h => absurd rfl h) (by omega) (fun h => absurd rfl h)
      i1 (fun h => absurd rfl h) o1 (fun h => absurd rfl h)
    refine ⟨c1, hc1, ?_, ?_⟩
    · exact (applyFlags_once (fun x => x.force = 1) .force hF _ _ c1 hc1).2.2.2 (by omega)
    · exact (applyFlags_once (fun x => x.verbose = 1) .verbose hV _ _ c1 hc1).2.2.2 (by omega)

theorem ParseArgv_force_verbose_witness :
    ((∀ a ∈ [lit "-f", lit "-v", lit "--force"], NulFree a) ∧
      2 ≤ occurrences .force (flagTokens [lit "-f", lit "-v", lit "--force"]) ∧
      ParseArgv (lit "bro") [lit "-f", lit "-v", lit "--force"] mainInit = none) ∧
    ((∀ a ∈ [lit "-f", lit "-i", lit "-v", lit "--verbose"], NulFree a) ∧
      occurrences .force (flagTokens [lit "-f", lit "-i", lit "-v", lit "--verbose"]) = 1 ∧
      occurrences .verbose (flagTokens [lit "-f", lit "-i", lit "-v", lit "--verbose"]) = 1 ∧
      (∀ t ∈ flagTokens [lit "-f", lit "-i", lit "-v", lit "--verbose"],
        usageFault t = false) ∧
      occurrences .input (flagTokens [lit "-f", lit "-i", lit "-v", lit "--verbose"]) ≤ 1 ∧
      occurrences .output (flagTokens [lit "-f", lit "-i", lit "-v", lit "--verbose"]) ≤ 1 ∧
      ∃ c1, ParseArgv (lit "bro") [lit "-f", lit "-i", lit "-v", lit "--verbose"] mainInit
          = some c1 ∧ c1.force = 1 ∧ c1.verbose = 1) :=
  ⟨⟨by decide, by decide,
      (ParseArgv_force_verbose (lit "bro") [lit "-f", lit "-v", lit "--force"] mainInit
        (by decide)).1 (by decide)⟩,
    ⟨by decide, by decide, by decide, by decide, by decide, by decide,
      (ParseArgv_force_verbose (lit "bro") [lit "-f", lit "-i", lit "-v", lit "--verbose"]
        mainInit (by decide)).2.2 (by decide) (by decide) (by decide) (by decide)
        (by decide)⟩⟩

/-- C7: for every argument list `ParseArgv` accepts, the resulting decompress
flag is set (to 1) exactly when `argv[0]` ends with the five characters
`unbro` or one of `--decompress`, `--uncompress`, `-d` occurs in flag
position; otherwise it is 0. -/
theorem ParseArgv_decompress (argv0 : CStr) (args : List CStr) (c c1 : Config)
    (h0 : NulFree argv0) (hargs : ∀ a ∈ args, NulFree a)
    (h : ParseArgv argv0 args c = some c1) :
    (c1.decompress ≠ 0 ↔
      (lit "unbro" <:+ argv0 ∨ ∃ t ∈ flagTokens args, flagOf t.1 = some .decompress)) ∧
    (c1.decompress = 0 ∨ c1.decompress = 1) := by
  rw [ParseArgv_eq_applyFlags argv0 args c hargs] at h
  have hi : (ParseArgvInit argv0 c).decompress = if lit "unbro" <:+ argv0 then 1 else 0 := by
    simp only [ParseArgvInit]
    by_cases hs : lit "unbro" <:+ argv0
    · rw [if_pos ((unbro_test_iff argv0 h0).2 hs), if_pos hs]
    · rw [if_neg (fun hh => hs ((unbro_test_iff argv0 h0).1 hh)), if_neg hs]
  have h01 : (ParseArgvInit argv0 c).decompress = 0 ∨ (ParseArgvInit argv0 c).decompress = 1 := by
    rw [hi]; split <;> simp
  obtain ⟨r1, r2⟩ := applyFlags_decompress _ _ c1 h h01
  refine ⟨?_, r1⟩
  rw [r2, hi]
  by_cases hs : lit "unbro" <:+ argv0 <;> simp [hs]

theorem ParseArgv_decompress_witness :
    (NulFree (lit "bro") ∧ (∀ a ∈ [lit "-f", lit "-d"], NulFree a) ∧
      ParseArgv (lit "bro") [lit "-f", lit "-d"] mainInit =
        some { mainInit with force := 1, decompress := 1 }) ∧
    ((({ mainInit with force := 1, decompress := 1 } : Config).decompress ≠ 0 ↔
      (lit "unbro" <:+ lit "bro" ∨
        ∃ t ∈ flagTokens [lit "-f", lit "-d"], flagOf t.1 = some .decompress)) ∧
    (({ mainInit with force := 1, decompress := 1 } : Config).decompress = 0 ∨
      ({ mainInit with force := 1, decompress := 1 } : Config).decompress = 1)) :=
  ⟨⟨by decide, by decide, by decide⟩,
    ParseArgv_decompress (lit "bro") [lit "-f", lit "-d"] mainInit _ (by decide) (by decide)
      (by decide)⟩


/-- C8, as stated, fails: `ParseArgv` accepts `-r 0` and produces the
repeat count 0. -/
theorem ParseArgv_repeat_counterexample :
    (∀ a ∈ [lit "-r", lit "0"], NulFree a) ∧
    ParseArgv (lit "bro") [lit "-r", lit "0"] mainInit = some { mainInit with repeat_ := 0 } ∧
    ¬ (1 ≤ ({ mainInit with repeat_ := 0 } : Config).repeat_) := by
  decide

/-- C8 (amended): every configuration that `ParseArgv` produces has a repeat
count in 0..99; the count is at least 1 when no repeat flag in flag position
has the value `0` or `00`. -/
theorem ParseArgv_repeat_range (argv0 : CStr) (args : List CStr) (c c1 : Config)
    (hargs : ∀ a ∈ args, NulFree a) (h : ParseArgv argv0 args c = some c1) :
    (0 ≤ c1.repeat_ ∧ c1.repeat_ ≤ 99) ∧
    ((∀ t ∈ flagTokens args, flagOf t.1 = some .repeat_ →
        t.2 ≠ some (lit "0") ∧ t.2 ≠ some (lit "00")) →
      1 ≤ c1.repeat_) := by
  rw [ParseArgv_eq_applyFlags argv0 args c hargs] at h
  have hnul : ∀ t ∈ flagTokens args, ∀ v, t.2 = some v → NulFree v :=
    fun t ht v hv => hargs v ((flagTokens_mem args.length args t (Nat.le_refl _) ht).2 v hv)
  have hinit : (ParseArgvInit argv0 c).repeat_ = 1 := rfl
  obtain ⟨r1, r2⟩ := applyFlags_repeat _ _ c1 hnul h (by rw [hinit]; decide)
  exact ⟨r1, r2 (by rw [hinit])⟩

theorem ParseArgv_repeat_range_witness :
    ((∀ a ∈ [lit "-r", lit "07"], NulFree a) ∧
      ParseArgv (lit "bro") [lit "-r", lit "07"] mainInit =
        some { mainInit with repeat_ := 7 }) ∧
    ((0 ≤ ({ mainInit with repeat_ := 7 } : Config).repeat_ ∧
        ({ mainInit with repeat_ := 7 } : Config).repeat_ ≤ 99) ∧
      ((∀ t ∈ flagTokens [lit "-r", lit "07"], flagOf t.1 = some .repeat_ →
          t.2 ≠ some (lit "0") ∧ t.2 ≠ some (lit "00")) →
        1 ≤ ({ mainInit with repeat_ := 7 } : Config).repeat_)) :=
  ⟨⟨by decide, by decide⟩,
    ParseArgv_repeat_range (lit "bro") [lit "-r", lit "07"] mainInit _ (by decide)
      (by decide)⟩

/-- C9: with no arguments after `argv[0]`, `ParseArgv` accepts and `main`
sees quality = 11, lgwin = 22, mode = 0, repeat = 1, force = 0, verbose = 0
and both paths absent; and for every argument list `ParseArgv` accepts, each
of these fields whose flag does not occur in flag position keeps that
default. -/
theorem ParseArgv_defaults (argv0 : CStr) :
    (∃ c0, ParseArgv argv0 [] mainInit = some c0 ∧
      c0.quality = 11 ∧ c0.lgwin = 22 ∧ c0.mode = 0 ∧ c0.repeat_ = 1 ∧ c0.force = 0 ∧
      c0.verbose = 0 ∧ c0.input_path = none ∧ c0.output_path = none) ∧
    ∀ (args : List CStr) (c1 : Config), (∀ a ∈ args, NulFree a) →
      ParseArgv argv0 args mainInit = some c1 →
      ((∀ t ∈ flagTokens args, flagOf t.1 ≠ some .quality) → c1.quality = 11) ∧
      ((∀ t ∈ flagTokens args, flagOf t.1 ≠ some .window) → c1.lgwin = 22) ∧
      ((∀ t ∈ flagTokens args, flagOf t.1 ≠ some .mode) → c1.mode = 0) ∧
      ((∀ t ∈ flagTokens args, flagOf t.1 ≠ some .repeat_) → c1.repeat_ = 1) ∧
      ((∀ t ∈ flagTokens args, flagOf t.1 ≠ some .force) → c1.force = 0) ∧
      ((∀ t ∈ flagTokens args, flagOf t.1 ≠ some .verbose) → c1.verbose = 0) ∧
      ((∀ t ∈ flagTokens args, flagOf t.1 ≠ some .input) → c1.input_path = none) ∧
      ((∀ t ∈ flagTokens args, flagOf t.1 ≠ some .output) → c1.output_path = none) := by
  refine ⟨⟨ParseArgvInit argv0 mainInit, rfl, rfl, rfl, rfl, rfl, rfl, rfl, rfl, rfl⟩, ?_⟩
  intro args c1 hargs h
  rw [ParseArgv_eq_applyFlags argv0 args mainInit hargs] at h
  refine ⟨fun hno => ?_, fun hno => ?_, fun hno => ?_, fun hno => ?_, fun hno => ?_,
    fun hno => ?_, fun hno => ?_, fun hno => ?_⟩
  · exact applyFlags_frame (fun x => x.quality) .quality
      (fun c c1 t hs => (applyFlag_some c c1 t hs).2.2.2.2.2.1.1) _ _ c1 h hno
  · exact applyFlags_frame (fun x => x.lgwin) .window
      (fun c c1 t hs => (applyFlag_some c c1 t hs).2.2.2.2.2.2.2.1.1) _ _ c1 h hno
  · exact applyFlags_frame (fun x => x.mode) .mode
      (fun c c1 t hs => (applyFlag_some c c1 t hs).2.2.2.2.2.2.2.2.1) _ _ c1 h hno
  · exact applyFlags_frame (fun x => x.repeat_) .repeat_
      (fun c c1 t hs => (applyFlag_some c c1 t hs).2.2.2.2.2.2.1.1) _ _ c1 h hno
  · exact applyFlags_frame (fun x => x.force) .force
      (fun c c1 t hs => (applyFlag_some c c1 t hs).1.1) _ _ c1 h hno
  · exact applyFlags_frame (fun x => x.verbose) .verbose
      (fun c c1 t hs => (applyFlag_some c c1 t hs).2.1.1) _ _ c1 h hno
  · exact applyFlags_frame (fun x => x.input_path) .input
      (fun c c1 t hs => (applyFlag_some c c1 t hs).2.2.2.1.1) _ _ c1 h hno
  · exact applyFlags_frame (fun x => x.output_path) .output
      (fun c c1 t hs => (applyFlag_some c c1 t hs).2.2.2.2.1.1) _ _ c1 h hno

theorem ParseArgv_defaults_witness :
    ((∀ a ∈ [lit "-q", lit "5", lit "-f"], NulFree a) ∧
      ParseArgv (lit "bro") [lit "-q", lit "5", lit "-f"] mainInit =
        some { mainInit with quality := 5, force := 1 }) ∧
    (((∀ t ∈ flagTokens [lit "-q", lit "5", lit "-f"], flagOf t.1 ≠ some .window) →
        ({ mainInit with quality := 5, force := 1 } : Config).lgwin = 22) ∧
      ((∀ t ∈ flagTokens [lit "-q", lit "5", lit "-f"], flagOf t.1 ≠ some .repeat_) →
        ({ mainInit with quality := 5, force := 1 } : Config).repeat_ = 1)) :=
  ⟨⟨by decide, by decide⟩,
    ⟨((ParseArgv_defaults (lit "bro")).2 [lit "-q", lit "5", lit "-f"] _ (by decide)
        (by decide)).2.1,
      ((ParseArgv_defaults (lit "bro")).2 [lit "-q", lit "5", lit "-f"] _ (by decide)
        (by decide)).2.2.2.1⟩⟩


/-! ## The run of main: the properties -/

theorem fopen_rb (w : World) (p : CStr) :
    fopen w p .rb =
      if (w.files p).isSome ∧ w.readable p = true then
        (some (.file w.opened), { w with opened := w.opened + 1 })
      else (none, w) := rfl

theorem fopen_wb (w : World) (p : CStr) :
    fopen w p .wb =
      if w.writable p = true then
        (some (.file w.opened), { (w.setFile p (some [])) with opened := w.opened + 1 })
      else (none, w) := rfl

theorem OpenInputFile_fail (w : World) (p : CStr) (h : (fopen w p .rb).1 = none) :
    OpenInputFile (some p) w = .exit 1 w [.fopen p .rb none, .stderr .perrorFopen] := by
  rw [fopen_rb] at h
  by_cases hc : (w.files p).isSome ∧ w.readable p = true
  · simp [hc] at h
  · simp [OpenInputFile, fopen_rb, hc]

theorem OpenInputFile_ok (w : World) (p : CStr) (h : (fopen w p .rb).1 ≠ none) :
    OpenInputFile (some p) w =
      .ok (.file w.opened) { w with opened := w.opened + 1 }
        [.fopen p .rb (some (.file w.opened))] := by
  rw [fopen_rb] at h
  by_cases hc : (w.files p).isSome ∧ w.readable p = true
  · simp [OpenInputFile, fopen_rb, hc]
  · simp [hc] at h

theorem mainLoop_input_fail (env : Env) (c : Config) (n i : Nat) (w : World) (p : CStr)
    (hp : c.input_path = some p) (h : (fopen w p .rb).1 = none) :
    mainLoop env c (n + 1) i w = ⟨1, w, [.fopen p .rb none, .stderr .perrorFopen]⟩ := by
  rw [mainLoop, hp, OpenInputFile_fail w p h]

theorem toNat_succ_of_pos (r : Int) (h : 1 ≤ r) : ∃ n, r.toNat = n + 1 :=
  ⟨r.toNat - 1, by omega⟩

/-- C10, as stated, fails: `-r 0 -i missing` is accepted, the input path
cannot be opened, and the run ends with exit status 0, because the loop body
is never entered. -/
theorem main_input_unopenable_counterexample :
    ParseArgv (lit "bro") [lit "-r", lit "0", lit "-i", lit "missing"] mainInit =
      some { mainInit with repeat_ := 0, input_path := some (lit "missing") } ∧
    (fopen sampleWorld (lit "missing") .rb).1 = none ∧
    (main sampleEnv (lit "bro") [lit "-r", lit "0", lit "-i", lit "missing"]
      sampleWorld).status = 0 := by
  decide

/-- C10 (amended): for every accepted configuration with a repeat count of
at least 1 and an input path that cannot be opened, the run ends with exit
status 1 in the first iteration, right after the failed `fopen` of the input,
and the file system is as it was: no file is created, truncated or removed,
whatever `force` is and whether or not the output file exists. -/
theorem main_input_unopenable (env : Env) (w : World) (argv0 : CStr) (args : List CStr)
    (c : Config) (p : CStr) (h : ParseArgv argv0 args mainInit = some c)
    (hp : c.input_path = some p) (hno : (fopen w p .rb).1 = none) (hrep : 1 ≤ c.repeat_) :
    (main env argv0 args w).status = 1 ∧
    (main env argv0 args w).trace = [.fopen p .rb none, .stderr .perrorFopen] ∧
    (main env argv0 args w).world = w := by
  obtain ⟨n, hn⟩ := toNat_succ_of_pos c.repeat_ hrep
  simp only [main, h, hn, mainLoop_input_fail env c n 0 w p hp hno, and_self]

theorem main_input_unopenable_witness :
    (ParseArgv (lit "bro") [lit "-f", lit "-i", lit "missing", lit "-o", lit "old"]
        mainInit =
      some { mainInit with force := 1, input_path := some (lit "missing"),
                           output_path := some (lit "old") } ∧
      (fopen sampleWorld (lit "missing") .rb).1 = none) ∧
    ((main sampleEnv (lit "bro") [lit "-f", lit "-i", lit "missing", lit "-o", lit "old"]
        sampleWorld).status = 1 ∧
      (main sampleEnv (lit "bro") [lit "-f", lit "-i", lit "missing", lit "-o", lit "old"]
        sampleWorld).trace = [.fopen (lit "missing") .rb none, .stderr .perrorFopen] ∧
      (main sampleEnv (lit "bro") [lit "-f", lit "-i", lit "missing", lit "-o", lit "old"]
        sampleWorld).world = sampleWorld) :=
  ⟨⟨by decide, by decide⟩,
    main_input_unopenable sampleEnv sampleWorld (lit "bro")
      [lit "-f", lit "-i", lit "missing", lit "-o", lit "old"]
      { mainInit with force := 1, input_path := some (lit "missing"),
                      output_path := some (lit "old") }
      (lit "missing") (by decide) rfl (by decide) (by decide)⟩


theorem OpenOutputFile_exists (w : World) (p : CStr) (h : stat w p = true) :
    OpenOutputFile (some p) 0 w = .exit 1 w [.stat p true, .stderr .outputFileExists] := by
  simp [OpenOutputFile, h]

theorem mainLoop_output_exists (env : Env) (c : Config) (n i : Nat) (w : World) (out : CStr)
    (hforce : c.force = 0) (hout : c.output_path = some out) (hex : stat w out = true)
    (hin : ∀ p, c.input_path = some p → (fopen w p .rb).1 ≠ none) :
    (mainLoop env c (n + 1) i w).status = 1 ∧
    (mainLoop env c (n + 1) i w).trace =
      (match c.input_path with
        | none => [Event.setmode .stdin]
        | some p => [Event.fopen p .rb (some (.file w.opened))]) ++
      [.stat out true, .stderr .outputFileExists] ∧
    (mainLoop env c (n + 1) i w).world.files = w.files := by
  cases hi : c.input_path with
  | none =>
    rw [mainLoop, hi, hout, hforce]
    simp only [OpenInputFile]
    rw [OpenOutputFile_exists w out hex]
    simp
  | some p =>
    rw [mainLoop, hi, hout, hforce, OpenInputFile_ok w p (hin p hi)]
    simp only []
    rw [OpenOutputFile_exists _ out (by simpa [stat] using hex)]
    simp

/-- C1, as stated, fails: `-r 0 -i in -o old` is accepted with force = 0,
the output file exists and the input can be opened, and the run ends with
exit status 0, because the loop body is never entered. -/
theorem main_output_exists_counterexample :
    ParseArgv (lit "bro") [lit "-r", lit "0", lit "-i", lit "in", lit "-o", lit "old"]
        mainInit =
      some { mainInit with repeat_ := 0, input_path := some (lit "in"),
                           output_path := some (lit "old") } ∧
    stat sampleWorld (lit "old") = true ∧
    (fopen sampleWorld (lit "in") .rb).1 ≠ none ∧
    (main sampleEnv (lit "bro") [lit "-r", lit "0", lit "-i", lit "in", lit "-o", lit "old"]
      sampleWorld).status = 0 := by
  decide

/-- C1 (amended): for every accepted configuration with force = 0 and a
repeat count of at least 1 whose output path names a file that exists and
whose input can be opened, the run ends with exit status 1 on the "output
file exists" branch of the first iteration, right after opening the input and
finding the output; it makes no codec call, and the content of every file is
as before. -/
theorem main_output_exists (env : Env) (w : World) (argv0 : CStr) (args : List CStr)
    (c : Config) (out : CStr) (h : ParseArgv argv0 args mainInit = some c)
    (hforce : c.force = 0) (hout : c.output_path = some out) (hex : stat w out = true)
    (hin : ∀ p, c.input_path = some p → (fopen w p .rb).1 ≠ none) (hrep : 1 ≤ c.repeat_) :
    (main env argv0 args w).status = 1 ∧
    (main env argv0 args w).trace =
      (match c.input_path with
        | none => [Event.setmode .stdin]
        | some p => [Event.fopen p .rb (some (.file w.opened))]) ++
      [.stat out true, .stderr .outputFileExists] ∧
    (∀ e ∈ (main env argv0 args w).trace, e.isCodecCall = false) ∧
    (main env argv0 args w).world.files = w.files := by
  obtain ⟨n, hn⟩ := toNat_succ_of_pos c.repeat_ hrep
  obtain ⟨h1, h2, h3⟩ := mainLoop_output_exists env c n 0 w out hforce hout hex hin
  simp only [main, h, hn]
  refine ⟨h1, h2, ?_, h3⟩
  rw [h2]
  intro e he
  cases hi : c.input_path with
  | none =>
    rw [hi] at he
    simp at he
    rcases he with he | he | he <;> subst he <;> rfl
  | some p =>
    rw [hi] at he
    simp at he
    rcases he with he | he | he <;> subst he <;> rfl

theorem main_output_exists_witness :
    (ParseArgv (lit "bro") [lit "-i", lit "in", lit "-o", lit "old"] mainInit =
      some { mainInit with input_path := some (lit "in"), output_path := some (lit "old") } ∧
      stat sampleWorld (lit "old") = true ∧
      (fopen sampleWorld (lit "in") .rb).1 ≠ none) ∧
    ((main sampleEnv (lit "bro") [lit "-i", lit "in", lit "-o", lit "old"]
        sampleWorld).status = 1 ∧
      (main sampleEnv (lit "bro") [lit "-i", lit "in", lit "-o", lit "old"]
        sampleWorld).trace =
        [.fopen (lit "in") .rb (some (.file 0)), .stat (lit "old") true,
          .stderr .outputFileExists] ∧
      (∀ e ∈ (main sampleEnv (lit "bro") [lit "-i", lit "in", lit "-o", lit "old"]
          sampleWorld).trace, e.isCodecCall = false) ∧
      (main sampleEnv (lit "bro") [lit "-i", lit "in", lit "-o", lit "old"]
        sampleWorld).world.files = sampleWorld.files) :=
  ⟨⟨by decide, by decide, by decide⟩,
    main_output_exists sampleEnv sampleWorld (lit "bro")
      [lit "-i", lit "in", lit "-o", lit "old"]
      { mainInit with input_path := some (lit "in"), output_path := some (lit "old") }
      (lit "old") (by decide) rfl rfl (by decide)
      (fun p hp => by
        have : p = lit "in" := by simpa using hp.symm
        subst this
        decide)
      (by decide)⟩



theorem closeBoth_success (env : Env) (i : Nat) (fin fout : Stream) (w : World)
    (hclose : ∀ s, env.fclose i s = true) :
    closeBoth env i fin fout w = ([.fclose fin true, .fclose fout true], none) := by
  simp [closeBoth, hclose]

theorem setFile_trunc (w : World) (q : CStr) (k : Nat) (y : List Nat) :
    World.setFile { (w.setFile q (some [])) with opened := k } q (some y) =
      { (w.setFile q (some y)) with opened := k } := by
  simp only [World.setFile]
  congr 1
  funext p
  by_cases hp : p = q <;> simp [hp]

theorem mainLoop_step (env : Env) (c : Config) (n i : Nat) (w : World)
    (hin : ∀ p, c.input_path = some p → (w.files p).isSome = true ∧ w.readable p = true)
    (hout : ∀ p, c.output_path = some p →
      w.writable p = true ∧ (c.force ≠ 0 ∨ stat w p = false))
    (hcodec : codecOk env c i = true) (hclose : ∀ s, env.fclose i s = true) :
    mainLoop env c (n + 1) i w =
      (mainLoop env c n (i + 1) (cycleWorld c w (codecResult env c i).written)).after
        (fullCycle c w.opened) := by
  have hcl := fun fin fout w0 => closeBoth_success env i fin fout w0 hclose
  unfold codecOk at hcodec
  rw [mainLoop]
  cases hi : c.input_path with
  | none =>
    cases ho : c.output_path with
    | none =>
      by_cases hd : c.decompress ≠ 0
      · rw [if_pos hd] at hcodec
        simp [OpenInputFile, OpenOutputFile, hd, hcodec, hcl, fullCycle, cycleWorld,
          codecResult, hi, ho, World.write]
      · rw [if_neg hd] at hcodec
        simp [OpenInputFile, OpenOutputFile, hd, hcodec, hcl, fullCycle, cycleWorld,
          codecResult, hi, ho, World.write]
    | some q =>
      obtain ⟨hw, hs⟩ := hout q ho
      have hg : ¬ (c.force = 0 ∧ stat w q = true) := by
        rintro ⟨h1, h2⟩
        rcases hs with hs | hs
        · exact hs h1
        · rw [h2] at hs; exact absurd hs (by decide)
      by_cases hd : c.decompress ≠ 0
      · rw [if_pos hd] at hcodec
        simp [OpenInputFile, OpenOutputFile, hd, hcodec, hcl, fullCycle, cycleWorld,
          codecResult, hi, ho, World.write, hg, fopen_wb, hw, setFile_trunc]
      · rw [if_neg hd] at hcodec
        simp [OpenInputFile, OpenOutputFile, hd, hcodec, hcl, fullCycle, cycleWorld,
          codecResult, hi, ho, World.write, hg, fopen_wb, hw, setFile_trunc]
  | some p =>
    obtain ⟨hr1, hr2⟩ := hin p hi
    cases ho : c.output_path with
    | none =>
      by_cases hd : c.decompress ≠ 0
      · rw [if_pos hd] at hcodec
        simp [OpenInputFile, OpenOutputFile, hd, hcodec, hcl, fullCycle, cycleWorld,
          codecResult, hi, ho, World.write, fopen_rb, hr1, hr2]
      · rw [if_neg hd] at hcodec
        simp [OpenInputFile, OpenOutputFile, hd, hcodec, hcl, fullCycle, cycleWorld,
          codecResult, hi, ho, World.write, fopen_rb, hr1, hr2]
    | some q =>
      obtain ⟨hw, hs⟩ := hout q ho
      have hg : ¬ (c.force = 0 ∧ stat { w with opened := w.opened + 1 } q = true) := by
        rintro ⟨h1, h2⟩
        rcases hs with hs | hs
        · exact hs h1
        · have h3 : stat w q = true := h2
          rw [h3] at hs; exact absurd hs (by decide)
      have hst : ∀ x : List Nat, World.setFile { w with opened := w.opened + 1 } q (some x) =
          { (w.setFile q (some x)) with opened := w.opened + 1 } := fun _ => rfl
      by_cases hd : c.decompress ≠ 0
      · rw [if_pos hd] at hcodec
        simp [OpenInputFile, OpenOutputFile, hd, hcodec, hcl, fullCycle, cycleWorld,
          codecResult, hi, ho, World.write, hg, fopen_wb, hw, setFile_trunc, fopen_rb,
          hr1, hr2, hst]
      · rw [if_neg hd] at hcodec
        simp [OpenInputFile, OpenOutputFile, hd, hcodec, hcl, fullCycle, cycleWorld,
          codecResult, hi, ho, World.write, hg, fopen_wb, hw, setFile_trunc, fopen_rb,
          hr1, hr2, hst]



theorem cycleWorld_props (c : Config) (w : World) (x : List Nat) :
    (cycleWorld c w x).opened = w.opened + opensPerCycle c ∧
    (cycleWorld c w x).readable = w.readable ∧
    (cycleWorld c w x).writable = w.writable ∧
    ∀ p, (w.files p).isSome = true → ((cycleWorld c w x).files p).isSome = true := by
  unfold cycleWorld opensPerCycle
  cases c.input_path <;> cases c.output_path <;> simp [World.setFile]
  all_goals (intro p hp; split <;> simp [hp])

theorem cycleWorld_removable (c : Config) (w : World) (x : List Nat) :
    (cycleWorld c w x).removable = w.removable := by
  unfold cycleWorld
  cases c.input_path <;> cases c.output_path <;> rfl

theorem cycleWorld_opened (c : Config) (w : World) (x : List Nat) :
    (cycleWorld c w x).opened = w.opened + opensPerCycle c :=
  (cycleWorld_props c w x).1

theorem mainLoop_fail_step (env : Env) (c : Config) (n i : Nat) (w : World) (out : CStr)
    (hd : c.decompress = 0) (ho : c.output_path = some out)
    (hin : ∀ p, c.input_path = some p → (w.files p).isSome = true ∧ w.readable p = true)
    (hw : w.writable out = true) (hs : c.force ≠ 0 ∨ stat w out = false)
    (hfail : (env.BrotliCompress i ⟨c.quality, c.lgwin, c.mode⟩).ok = false) :
    (mainLoop env c (n + 1) i w).status = 1 ∧
    (mainLoop env c (n + 1) i w).trace = failedCycle c w.opened ∧
    (w.removable out = true → (mainLoop env c (n + 1) i w).world.files out = none) ∧
    (w.removable out = false →
      (mainLoop env c (n + 1) i w).world.files out =
        some (env.BrotliCompress i ⟨c.quality, c.lgwin, c.mode⟩).written) := by
  have hg : ∀ k : Nat, ¬ (c.force = 0 ∧ stat { w with opened := k } out = true) := by
    rintro k ⟨h1, h2⟩
    rcases hs with hs | hs
    · exact hs h1
    · have h3 : stat w out = true := h2
      rw [h3] at hs; exact absurd hs (by decide)
  have hg0 : ¬ (c.force = 0 ∧ stat w out = true) := hg w.opened
  rw [mainLoop]
  cases hi : c.input_path with
  | none =>
    refine ⟨?_, ?_, ?_, ?_⟩
    · simp [OpenInputFile, OpenOutputFile, hd, hfail, ho, hg0, fopen_wb, hw]
    · simp [OpenInputFile, OpenOutputFile, hd, hfail, ho, hg0, fopen_wb, hw, failedCycle, hi]
    · intro hr
      simp [OpenInputFile, OpenOutputFile, hd, hfail, ho, hg0, fopen_wb, hw, unlink,
        World.write, World.setFile, hr]
    · intro hr
      simp [OpenInputFile, OpenOutputFile, hd, hfail, ho, hg0, fopen_wb, hw, unlink,
        World.write, World.setFile, hr]
  | some p =>
    obtain ⟨hr1, hr2⟩ := hin p hi
    have hg1 := hg (w.opened + 1)
    refine ⟨?_, ?_, ?_, ?_⟩
    · simp [OpenInputFile, OpenOutputFile, hd, hfail, ho, hg1, fopen_wb, hw, fopen_rb,
        hr1, hr2]
    · simp [OpenInputFile, OpenOutputFile, hd, hfail, ho, hg1, fopen_wb, hw, fopen_rb,
        hr1, hr2, failedCycle, hi]
    · intro hr
      simp [OpenInputFile, OpenOutputFile, hd, hfail, ho, hg1, fopen_wb, hw, fopen_rb,
        hr1, hr2, unlink, World.write, World.setFile, hr]
    · intro hr
      simp [OpenInputFile, OpenOutputFile, hd, hfail, ho, hg1, fopen_wb, hw, fopen_rb,
        hr1, hr2, unlink, World.write, World.setFile, hr]


theorem mainLoop_fail_at (env : Env) (c : Config) (out : CStr)
    (hd : c.decompress = 0) (ho : c.output_path = some out) :
    ∀ (k n i : Nat) (w : World), k < n →
      (∀ p, c.input_path = some p → (w.files p).isSome = true ∧ w.readable p = true) →
      w.writable out = true → (c.force ≠ 0 ∨ (stat w out = false ∧ k = 0)) →
      (∀ j, i ≤ j → j < i + k → codecOk env c j = true) →
      (∀ j, i ≤ j → j < i + k → ∀ s, env.fclose j s = true) →
      (env.BrotliCompress (i + k) ⟨c.quality, c.lgwin, c.mode⟩).ok = false →
      (mainLoop env c n i w).status = 1 ∧
      (mainLoop env c n i w).trace = cyclesThenFailure c k w.opened ∧
      (w.removable out = true → (mainLoop env c n i w).world.files out = none) ∧
      (w.removable out = false →
        (mainLoop env c n i w).world.files out =
          some (env.BrotliCompress (i + k) ⟨c.quality, c.lgwin, c.mode⟩).written) := by
  intro k
  induction k with
  | zero =>
    intro n i w hn hin hw hs _ _ hfail
    obtain ⟨m, rfl⟩ : ∃ m, n = m + 1 := ⟨n - 1, by omega⟩
    have hs1 : c.force ≠ 0 ∨ stat w out = false := hs.imp id (fun h => h.1)
    simpa [cyclesThenFailure] using mainLoop_fail_step env c m i w out hd ho hin hw hs1 hfail
  | succ k ih =>
    intro n i w hn hin hw hs hcodec hclose hfail
    obtain ⟨m, rfl⟩ : ∃ m, n = m + 1 := ⟨n - 1, by omega⟩
    have hf : c.force ≠ 0 := by
      rcases hs with hs | hs
      · exact hs
      · omega
    have hout1 : ∀ p, c.output_path = some p →
        w.writable p = true ∧ (c.force ≠ 0 ∨ stat w p = false) := by
      intro p hp
      have : p = out := by rw [ho] at hp; exact (Option.some.inj hp).symm
      subst this
      exact ⟨hw, Or.inl hf⟩
    rw [mainLoop_step env c m i w hin hout1 (hcodec i (Nat.le_refl _) (by omega))
      (hclose i (Nat.le_refl _) (by omega))]
    obtain ⟨p1, p2, p3, p4⟩ := cycleWorld_props c w (codecResult env c i).written
    have p5 := cycleWorld_removable c w (codecResult env c i).written
    have e : i + 1 + k = i + (k + 1) := by omega
    obtain ⟨r1, r2, r3, r4⟩ := ih m (i + 1) (cycleWorld c w (codecResult env c i).written)
      (by omega)
      (fun p hp => by
        obtain ⟨a, b⟩ := hin p hp
        exact ⟨p4 p a, by rw [p2]; exact b⟩)
      (by rw [p3]; exact hw) (Or.inl hf)
      (fun j h1 h2 => hcodec j (by omega) (by omega))
      (fun j h1 h2 => hclose j (by omega) (by omega))
      (by rw [e]; exact hfail)
    rw [p5] at r3 r4
    rw [e] at r4
    refine ⟨r1, ?_, r3, r4⟩
    simp only [Outcome.after, r2, p1, cyclesThenFailure]

/-- C4, as stated, fails: with `-f -r 3 -i in -o old`, in compress mode, both
opens succeed in every iteration and `BrotliCompress` reports failure in
iteration 1; the run ends with exit status 1 after calling `unlink`, but in a
file system in which the name may not be removed the file is still at the
output path, holding what the codec wrote. -/
theorem main_compress_failure_counterexample :
    ParseArgv (lit "bro")
        [lit "-f", lit "-r", lit "3", lit "-i", lit "in", lit "-o", lit "old"] mainInit =
      some { mainInit with force := 1, repeat_ := 3, input_path := some (lit "in"),
                           output_path := some (lit "old") } ∧
    (fopen lockedWorld (lit "in") .rb).1 ≠ none ∧
    (fopen lockedWorld (lit "old") .wb).1 ≠ none ∧
    (failingEnv.BrotliCompress 1 ⟨11, 22, 0⟩).ok = false ∧
    (main failingEnv (lit "bro")
      [lit "-f", lit "-r", lit "3", lit "-i", lit "in", lit "-o", lit "old"]
      lockedWorld).trace =
      [.fopen (lit "in") .rb (some (.file 0)), .fopen (lit "old") .wb (some (.file 1)),
        .BrotliCompress ⟨11, 22, 0⟩ (.file 0) (.file 1) true,
        .fclose (.file 0) true, .fclose (.file 1) true,
        .fopen (lit "in") .rb (some (.file 2)), .fopen (lit "old") .wb (some (.file 3)),
        .BrotliCompress ⟨11, 22, 0⟩ (.file 2) (.file 3) false,
        .stderr .compressionFailed, .unlink (some (lit "old"))] ∧
    (main failingEnv (lit "bro")
      [lit "-f", lit "-r", lit "3", lit "-i", lit "in", lit "-o", lit "old"]
      lockedWorld).status = 1 ∧
    (main failingEnv (lit "bro")
      [lit "-f", lit "-r", lit "3", lit "-i", lit "in", lit "-o", lit "old"]
      lockedWorld).world.files (lit "old") = some [9] := by
  decide

/-- C4 (amended): for every accepted configuration in compress mode with an
output path, if the input and the output can be opened in every iteration up
to iteration k (the output passes the existence test: `--force` is given, or
k = 0 and no file has that name), the iterations before k succeed, and the
`BrotliCompress` call of iteration k reports failure, then the run performs k
full cycles and the failing one (both opens, the codec call, the diagnostic,
`unlink` of the output path) and ends with exit status 1. Afterwards no file
exists at the output path when that `unlink` succeeds; its result is not
checked, and when it fails the file stays, holding what the codec wrote. -/
theorem main_compress_failure (env : Env) (w : World) (argv0 : CStr) (args : List CStr)
    (c : Config) (out : CStr) (k : Nat) (h : ParseArgv argv0 args mainInit = some c)
    (hd : c.decompress = 0) (hout : c.output_path = some out)
    (hk : k < c.repeat_.toNat)
    (hin : ∀ p, c.input_path = some p → (fopen w p .rb).1 ≠ none)
    (hopen : (fopen w out .wb).1 ≠ none)
    (hguard : c.force ≠ 0 ∨ (stat w out = false ∧ k = 0))
    (hcodec : ∀ j, j < k → codecOk env c j = true)
    (hclose : ∀ j, j < k → ∀ s, env.fclose j s = true)
    (hfail : (env.BrotliCompress k ⟨c.quality, c.lgwin, c.mode⟩).ok = false) :
    (main env argv0 args w).status = 1 ∧
    (main env argv0 args w).trace = cyclesThenFailure c k w.opened ∧
    (w.removable out = true → (main env argv0 args w).world.files out = none) ∧
    (w.removable out = false →
      (main env argv0 args w).world.files out =
        some (env.BrotliCompress k ⟨c.quality, c.lgwin, c.mode⟩).written) := by
  simp only [main, h]
  have hin1 : ∀ p, c.input_path = some p →
      (w.files p).isSome = true ∧ w.readable p = true := by
    intro p hp
    have := hin p hp
    rw [fopen_rb] at this
    by_cases hc : (w.files p).isSome ∧ w.readable p = true
    · exact hc
    · simp [hc] at this
  have hw : w.writable out = true := by
    rw [fopen_wb] at hopen
    by_cases hc : w.writable out = true
    · exact hc
    · simp [hc] at hopen
  have key := mainLoop_fail_at env c out hd hout k c.repeat_.toNat 0 w hk hin1 hw hguard
    (fun j _ hj => hcodec j (by omega)) (fun j _ hj => hclose j (by omega))
    (by rw [Nat.zero_add]; exact hfail)
  rw [Nat.zero_add] at key
  exact key

theorem main_compress_failure_witness :
    (ParseArgv (lit "bro")
        [lit "-f", lit "-r", lit "3", lit "-i", lit "in", lit "-o", lit "old"] mainInit =
      some { mainInit with force := 1, repeat_ := 3, input_path := some (lit "in"),
                           output_path := some (lit "old") } ∧
      (fopen sampleWorld (lit "in") .rb).1 ≠ none ∧
      (fopen sampleWorld (lit "old") .wb).1 ≠ none ∧
      (failingEnv.BrotliCompress 1 ⟨11, 22, 0⟩).ok = false ∧
      sampleWorld.removable (lit "old") = true) ∧
    ((main failingEnv (lit "bro")
        [lit "-f", lit "-r", lit "3", lit "-i", lit "in", lit "-o", lit "old"]
        sampleWorld).status = 1 ∧
      (main failingEnv (lit "bro")
        [lit "-f", lit "-r", lit "3", lit "-i", lit "in", lit "-o", lit "old"]
        sampleWorld).trace =
        [.fopen (lit "in") .rb (some (.file 0)), .fopen (lit "old") .wb (some (.file 1)),
          .BrotliCompress ⟨11, 22, 0⟩ (.file 0) (.file 1) true,
          .fclose (.file 0) true, .fclose (.file 1) true,
          .fopen (lit "in") .rb (some (.file 2)), .fopen (lit "old") .wb (some (.file 3)),
          .BrotliCompress ⟨11, 22, 0⟩ (.file 2) (.file 3) false,
          .stderr .compressionFailed, .unlink (some (lit "old"))] ∧
      (main failingEnv (lit "bro")
        [lit "-f", lit "-r", lit "3", lit "-i", lit "in", lit "-o", lit "old"]
        sampleWorld).world.files (lit "old") = none) :=
  have hmain := main_compress_failure failingEnv sampleWorld (lit "bro")
      [lit "-f", lit "-r", lit "3", lit "-i", lit "in", lit "-o", lit "old"]
      { mainInit with force := 1, repeat_ := 3, input_path := some (lit "in"),
                      output_path := some (lit "old") }
      (lit "old") 1 (by decide) rfl rfl (by decide)
      (fun p hp => by
        have : p = lit "in" := by simpa using hp.symm
        subst this
        decide)
      (by decide) (Or.inl (by decide))
      (fun j hj => by
        have : j = 0 := by omega
        subst this
        rfl)
      (fun _ _ _ => rfl) (by decide)
  ⟨⟨by decide, by decide, by decide, by decide, by decide⟩,
    hmain.1, hmain.2.1, hmain.2.2.1 (by decide)⟩

end Bro
